import Mathlib

/-!
Verification development for the bsai repository (aiAgent.js and its server).

The JavaScript source is embedded shallowly:
* strings are `List Char` (with `String` wrappers at the interface);
* the specific regular expressions of aiAgent.js are embedded as scanning
  functions implementing exactly the (deterministic) matches those patterns
  perform on the inputs the code feeds them;
* the external collaborators (the language-model call, `JSON.parse`,
  `createCalendarEvent`, `Date.prototype.toISOString`) are parameters;
  `parseJsonSimple` is a concrete instance of the `JSON.parse` parameter,
  faithful to JSON on the subset it accepts, used for concrete runs;
* thrown exceptions are `Except`, and `async` plays no role (one request is a
  single sequential flow).
-/

namespace BsAI

/-! ## JavaScript string primitives -/

/-- Characters matched by the JavaScript regex class `\s` (restricted to the
ASCII range, which is all this code base produces). -/
def jsWs (c : Char) : Bool :=
  c = ' ' || c = '\t' || c = '\n' || c = '\r' || c = '\x0b' || c = '\x0c'

/-- Embedding of `String.prototype.trim`. -/
def trimL (l : List Char) : List Char :=
  ((l.dropWhile jsWs).reverse.dropWhile jsWs).reverse

/-- Character scan behind `collapseWs`; `prevWs` records whether the previous
character was whitespace (so a run contributes one space in total). -/
def collapseGo (prevWs : Bool) : List Char → List Char
  | [] => []
  | c :: rest =>
    if jsWs c then
      if prevWs then collapseGo true rest else ' ' :: collapseGo true rest
    else c :: collapseGo false rest

/-- Embedding of `text.replace(/\s+/g, ' ')`: every maximal run of whitespace
becomes a single space (aiAgent.js line 17). -/
def collapseWs (l : List Char) : List Char := collapseGo false l

/-- Boolean test that `pat` is a prefix of `s`. -/
def startsWithL : List Char → List Char → Bool
  | [], _ => true
  | _ :: _, [] => false
  | p :: ps, c :: cs => p = c && startsWithL ps cs

/-- Boolean test that `pat` occurs as a contiguous substring of `s`; this is
the semantics of `String.prototype.includes`. -/
def containsSub (pat : List Char) : List Char → Bool
  | [] => pat.isEmpty
  | c :: rest => startsWithL pat (c :: rest) || containsSub pat rest

/-- Embedding of `s.includes(sub)` at the `String` level. -/
def strIncludes (s sub : String) : Bool := containsSub sub.data s.data

/-- ASCII lower-casing, enough for the case-insensitive (`/i`) label regexes
of aiAgent.js, whose labels are ASCII. -/
def asciiLower (c : Char) : Char :=
  if 'A' ≤ c && c ≤ 'Z' then Char.ofNat (c.toNat + 32) else c

/-- Case-insensitive `startsWithL` (ASCII). -/
def startsWithCi : List Char → List Char → Bool
  | [], _ => true
  | _ :: _, [] => false
  | p :: ps, c :: cs => asciiLower p = asciiLower c && startsWithCi ps cs

/-- Fuel-indexed digit expansion behind `natChars`; any fuel above `n` gives
the decimal digits of `n`. -/
def natCharsAux : Nat → Nat → List Char
  | 0, _ => []
  | fuel + 1, n =>
    if n < 10 then [Char.ofNat (48 + n)]
    else natCharsAux fuel (n / 10) ++ [Char.ofNat (48 + n % 10)]

/-- Decimal rendering of a natural number, as JavaScript template
interpolation `${index + 1}` renders it. -/
def natChars (n : Nat) : List Char := natCharsAux (n + 1) n

/-! ## JSON values

JavaScript values produced by `JSON.parse`, as far as aiAgent.js inspects
them.  An object is a finite list of key/value pairs with distinct keys (the
parser below never produces duplicates; property lookup takes the first
binding). -/

inductive Json where
  | null
  | bool (b : Bool)
  | num (n : Int)
  | str (s : String)
  | arr (items : List Json)
  | obj (fields : List (String × Json))

/-- First binding of `key` in an association list. -/
def lookupField : List (String × Json) → String → Option Json
  | [], _ => none
  | (k, v) :: rest, key => if k = key then some v else lookupField rest key

/-- Property read `j.key`: `none` plays the role of `undefined` (also for a
read from a non-object). -/
def jGet : Json → String → Option Json
  | .obj fields, key => lookupField fields key
  | _, _ => none

/-- Replace the first binding of `key`, or append one. -/
def setFieldA : List (String × Json) → String → Json → List (String × Json)
  | [], key, v => [(key, v)]
  | (k, w) :: rest, key, v =>
    if k = key then (k, v) :: rest else (k, w) :: setFieldA rest key v

/-- Property write `j.key = v` (a no-op on non-objects, as sloppy-mode
JavaScript assignment to a primitive is). -/
def jSet : Json → String → Json → Json
  | .obj fields, key, v => .obj (setFieldA fields key v)
  | j, _, _ => j

/-- JavaScript truthiness of a parsed JSON value. -/
def jsTruthy : Json → Bool
  | .null => false
  | .bool b => b
  | .num n => n != 0
  | .str s => s != ""
  | .arr _ => true
  | .obj _ => true

/-- Truthiness of a property read (`undefined` is falsy). -/
def jTruthy (o : Option Json) : Bool :=
  match o with
  | some j => jsTruthy j
  | none => false

/-! ## A concrete JSON parser

Instance of the `JSON.parse` collaborator used for concrete runs.  It accepts
the JSON subset appearing in this development (null, booleans, integers,
escape-free strings, arrays, objects without duplicate keys) and agrees with
`JSON.parse` there; on numbers with fractions/exponents or strings with
escapes it simply rejects.  Objects keep their members in input order. -/

/-- JSON insignificant whitespace. -/
def jsonWsC (c : Char) : Bool := c = ' ' || c = '\t' || c = '\n' || c = '\r'

/-- Scan an escape-free JSON string body up to the closing quote. -/
def scanStringBody (fuel : Nat) (l : List Char) : Option (List Char × List Char) :=
  match fuel, l with
  | 0, _ => none
  | _, [] => none
  | fuel + 1, c :: rest =>
    if c = '"' then some ([], rest)
    else if c = '\\' then none
    else
      match scanStringBody fuel rest with
      | some (body, rem) => some (c :: body, rem)
      | none => none

/-- Parse a digit run as a natural number literal; rejects a following `.`,
`e` or `E` so no float is misread as an integer. -/
def parseNatNum (l : List Char) : Option (Nat × List Char) :=
  let ds := l.takeWhile Char.isDigit
  if ds.isEmpty then none
  else
    match l.drop ds.length with
    | '.' :: _ => none
    | 'e' :: _ => none
    | 'E' :: _ => none
    | rem => some (ds.foldl (fun acc c => 10 * acc + (c.toNat - 48)) 0, rem)

mutual

/-- Parse one JSON value; returns the value and the unconsumed rest. -/
def parseValue (fuel : Nat) (l : List Char) : Option (Json × List Char) :=
  match fuel with
  | 0 => none
  | fuel + 1 =>
    let l := l.dropWhile jsonWsC
    if startsWithL "null".data l then some (.null, l.drop 4)
    else if startsWithL "true".data l then some (.bool true, l.drop 4)
    else if startsWithL "false".data l then some (.bool false, l.drop 5)
    else
      match l with
      | '"' :: rest =>
        match scanStringBody rest.length rest with
        | some (body, rem) => some (.str ⟨body⟩, rem)
        | none => none
      | '{' :: rest =>
        let rest2 := rest.dropWhile jsonWsC
        match rest2 with
        | '}' :: rem => some (.obj [], rem)
        | _ =>
          match parseMembers fuel rest2 with
          | some (fields, rem) => some (.obj fields, rem)
          | none => none
      | '[' :: rest =>
        let rest2 := rest.dropWhile jsonWsC
        match rest2 with
        | ']' :: rem => some (.arr [], rem)
        | _ =>
          match parseElements fuel rest2 with
          | some (items, rem) => some (.arr items, rem)
          | none => none
      | '-' :: rest =>
        match parseNatNum rest with
        | some (n, rem) => some (.num (-(n : Int)), rem)
        | none => none
      | _ =>
        match parseNatNum l with
        | some (n, rem) => some (.num (n : Int), rem)
        | none => none

/-- Parse the members of an object after the opening brace and whitespace. -/
def parseMembers (fuel : Nat) (l : List Char) : Option (List (String × Json) × List Char) :=
  match fuel with
  | 0 => none
  | fuel + 1 =>
    match l.dropWhile jsonWsC with
    | '"' :: rest =>
      match scanStringBody rest.length rest with
      | some (key, rest2) =>
        match (rest2.dropWhile jsonWsC) with
        | ':' :: rest3 =>
          match parseValue fuel rest3 with
          | some (v, rest4) =>
            match rest4.dropWhile jsonWsC with
            | ',' :: rest5 =>
              match parseMembers fuel rest5 with
              | some (fields, rem) => some ((⟨key⟩, v) :: fields, rem)
              | none => none
            | '}' :: rem => some ([(⟨key⟩, v)], rem)
            | _ => none
          | none => none
        | _ => none
      | none => none
    | _ => none

/-- Parse the elements of an array after the opening bracket and whitespace. -/
def parseElements (fuel : Nat) (l : List Char) : Option (List Json × List Char) :=
  match fuel with
  | 0 => none
  | fuel + 1 =>
    match parseValue fuel l with
    | some (v, rest) =>
      match rest.dropWhile jsonWsC with
      | ',' :: rest2 =>
        match parseElements fuel rest2 with
        | some (items, rem) => some (v :: items, rem)
        | none => none
      | ']' :: rem => some ([v], rem)
      | _ => none
    | none => none

end

/-- Concrete `JSON.parse` instance: a complete parse of the input (allowing
surrounding whitespace), `none` where `JSON.parse` would throw. -/
def parseJsonSimple (l : List Char) : Option Json :=
  match parseValue (l.length + 1) l with
  | some (j, rest) => if (rest.dropWhile jsonWsC).isEmpty then some j else none
  | none => none

/-! ## Response classifier

Embedding of aiAgent.js lines 159-211: the fenced-block regex
``/```json\s*(\{[\s\S]*?\})\s*```/`` and the branch on the parsed object.  On
the inputs of this code the regex match is deterministic: the match starts at
the leftmost position where the whole pattern can succeed, the whitespace
runs are forced to be maximal (the character after them is not whitespace),
and the lazy group ends at the first `}` that is followed by optional
whitespace and a closing fence. -/

def fenceTag : List Char := "```json".data

def fenceClose : List Char := "```".data

/-- Scan for the first `}` followed by optional whitespace and a closing
fence; returns the consumed characters including that `}` (the lazy tail of
the group `(\{[\s\S]*?\})`). -/
def findFencedClose : List Char → Option (List Char)
  | [] => none
  | c :: rest =>
    if c = '}' && startsWithL fenceClose (rest.dropWhile jsWs) then some [c]
    else (findFencedClose rest).map (c :: ·)

/-- First match of the capture group of ``/```json\s*(\{[\s\S]*?\})\s*```/``
in the raw model response (aiAgent.js line 159), or `none`. -/
def extractJsonBlock : List Char → Option (List Char)
  | [] => none
  | s@(_ :: rest) =>
    if startsWithL fenceTag s then
      match (s.drop fenceTag.length).dropWhile jsWs with
      | '{' :: body =>
        match findFencedClose body with
        | some inner => some ('{' :: inner)
        | none => extractJsonBlock rest
      | _ => extractJsonBlock rest
    else extractJsonBlock rest

/-- Strict comparison `parsedResponse.type === "calendar_event"`. -/
def isCalendarEventType (o : Option Json) : Bool :=
  match o with
  | some (.str s) => s = "calendar_event"
  | _ => false

/-- Outcome of interpreting one raw model response (spec 4.1). -/
inductive ClassifyResult where
  | event (ed : Json)
  | ideaText (t : List Char)

/-- Classification of one raw model response (aiAgent.js lines 159-164 plus
the fall-through at 208-211): a calendar-event intent exactly when a fenced
JSON block is found, parses, has `type === "calendar_event"` and a truthy
`eventDetails`; in every other case, idea-text handling of the unmodified
input.  The `JSON.parse` collaborator is the parameter `parse`. -/
def classify (parse : List Char → Option Json) (raw : List Char) : ClassifyResult :=
  match extractJsonBlock raw with
  | some js =>
    match parse js with
    | some j =>
      match jGet j "eventDetails" with
      | some ed =>
        if isCalendarEventType (jGet j "type") && jsTruthy ed then .event ed
        else .ideaText raw
      | none => .ideaText raw
    | none => .ideaText raw
  | none => .ideaText raw

/-! ## Event normalizer

Embedding of aiAgent.js lines 173-194.  JavaScript `Date` values are modeled
as a local-calendar point: an abstract day index plus the time of day;
`setDate(getDate() + 1)` is day + 1 (the JS engine performs the month
rollover that the day index abstracts), and `toISOString` is an external
collaborator parameter. -/

structure JsDateTime where
  day : Int
  hour : Nat
  minute : Nat
  second : Nat
  ms : Nat
deriving DecidableEq

/-- Embedding of `d.setDate(d.getDate() + 1)` (aiAgent.js line 175). -/
def addOneDay (d : JsDateTime) : JsDateTime := { d with day := d.day + 1 }

/-- Embedding of the four-argument `d.setHours(h, 0, 0, 0)` (line 176);
an hour count of 24 or more rolls into the date, as in JavaScript. -/
def setHoursFull (d : JsDateTime) (h : Nat) : JsDateTime :=
  { d with day := d.day + (h / 24 : Nat), hour := h % 24, minute := 0, second := 0, ms := 0 }

/-- Embedding of the single-argument `d.setHours(h)` (line 179), which keeps
minutes, seconds and milliseconds. -/
def setHoursOnly (d : JsDateTime) (h : Nat) : JsDateTime :=
  { d with day := d.day + (h / 24 : Nat), hour := h % 24 }

/-- Embedding of `s.substring(a, b)` for `a ≤ b` within bounds. -/
def jsSubstring (l : List Char) (a b : Nat) : List Char := (l.drop a).take (b - a)

/-- Date repair of aiAgent.js lines 188-189 / 192-193: insert `-` into the
date digits and `:` into the time digits, keeping whatever follows position
15 (the offset) unchanged. -/
def repairDateStr (d : List Char) : List Char :=
  jsSubstring d 0 4 ++ "-".data ++ jsSubstring d 4 6 ++ "-".data ++ jsSubstring d 6 8
    ++ "T".data ++ jsSubstring d 9 11 ++ ":".data ++ jsSubstring d 11 13 ++ ":".data
    ++ jsSubstring d 13 15 ++ d.drop 15

/-- Guard of the repair step: the string has neither a `-` nor a `:`
(aiAgent.js lines 187 and 191). -/
def repairGuard (d : String) : Bool :=
  !containsSub "-".data d.data && !containsSub ":".data d.data

/-- One field (`start` or `end`) of the repair step.  A truthy non-string
`dateTime` makes `dateTime.includes` (or the subsequent `substring`) throw,
which the embedding reports as `Except.error`. -/
def repairField (ed : Json) (f : String) : Except String Json :=
  match jGet ed f with
  | none => .ok ed
  | some fv =>
    if jsTruthy fv then
      match jGet fv "dateTime" with
      | none => .ok ed
      | some dv =>
        if jsTruthy dv then
          match dv with
          | .str d =>
            if repairGuard d then
              .ok (jSet ed f (jSet fv "dateTime" (.str ⟨repairDateStr d.data⟩)))
            else .ok ed
          | _ => .error "TypeError: dateTime.includes is not a function"
        else .ok ed
    else .ok ed

/-- Condition of aiAgent.js line 173: start or end absent (or falsy), or
either dateTime absent (or falsy). -/
def defaultsGuard (ed : Json) : Bool :=
  !jTruthy (jGet ed "start") || !jTruthy (jGet ed "end")
    || !jTruthy ((jGet ed "start").bind (jGet · "dateTime"))
    || !jTruthy ((jGet ed "end").bind (jGet · "dateTime"))

/-- Time zone selection `eventDetails.timeZone || currentTimeZone`
(aiAgent.js lines 181-182). -/
def tzSelect (ed : Json) (currentTZ : String) : Json :=
  match jGet ed "timeZone" with
  | some v => if jsTruthy v then v else .str currentTZ
  | none => .str currentTZ

/-- Event normalization, aiAgent.js lines 173-194: default start/end when
incomplete, then the compact-date repair on each of start and end.  The
collaborator `toISO` is `Date.prototype.toISOString`, `now` is `new Date()`
and `currentTZ` the resolved time zone. -/
def normalize (toISO : JsDateTime → String) (now : JsDateTime) (currentTZ : String)
    (ed : Json) : Except String Json :=
  let ed1 :=
    if defaultsGuard ed then
      let ds := setHoursFull (addOneDay now) 9
      let de := setHoursOnly ds (ds.hour + 1)
      let tz := tzSelect ed currentTZ
      jSet (jSet ed "start" (.obj [("dateTime", .str (toISO ds)), ("timeZone", tz)]))
        "end" (.obj [("dateTime", .str (toISO de)), ("timeZone", tz)])
    else ed
  match repairField ed1 "start" with
  | .error e => .error e
  | .ok ed2 => repairField ed2 "end"

/-! ## Idea formatter

Embedding of `formatResponse` (aiAgent.js lines 15-74).  The function runs on
whitespace-collapsed text, so the label regexes below never meet a line
terminator and `.` ranges over every character that actually occurs. -/

/-- Label consumed by the split delimiter and re-prefixed to each block. -/
def ideaLabel : List Char := "Idea Name:".data

/-- Length of the match of the split delimiter `/\d+\.\s*Idea Name:/`
(aiAgent.js line 21, no `i` flag) at the head of `s`, or `none`.  The digit
and whitespace runs of a successful match are forced maximal, so the matched
length is unique. -/
def matchAt (s : List Char) : Option Nat :=
  let ds := s.takeWhile Char.isDigit
  if ds.isEmpty then none
  else
    match s.dropWhile Char.isDigit with
    | c :: rest =>
      if c = '.' then
        if startsWithL ideaLabel (rest.dropWhile jsWs) then
          some (ds.length + 1 + (rest.takeWhile jsWs).length + ideaLabel.length)
        else none
      else none
    | [] => none

/-- A match of the split delimiter starts at the head of `s`.  This is the
declarative counterpart of `matchAt`. -/
def patAt (s : List Char) : Prop :=
  ∃ ds ws rest, s = ds ++ '.' :: (ws ++ (ideaLabel ++ rest)) ∧ ds ≠ []
    ∧ (∀ c ∈ ds, c.isDigit) ∧ (∀ c ∈ ws, jsWs c)

/-- Splitting scan of `String.prototype.split` with the delimiter regex of
line 21: `cur` accumulates the current segment in reverse; a delimiter match
emits the segment and skips the matched characters.  Structural in `fuel`;
any fuel above the length of `s` is enough (a successful match consumes at
least one character). -/
def splitGo : Nat → List Char → List Char → List (List Char)
  | 0, cur, _ => [cur.reverse]
  | fuel + 1, cur, s =>
    match matchAt s with
    | some n => cur.reverse :: splitGo fuel [] (s.drop n)
    | none =>
      match s with
      | [] => [cur.reverse]
      | c :: rest => splitGo fuel (c :: cur) rest

/-- Embedding of `cleanedText.split(/\d+\.\s*Idea Name:/)`. -/
def splitIdea (s : List Char) : List (List Char) := splitGo (s.length + 1) [] s

/-- Embedding of `.filter(block => block.trim() !== '')` (line 21). -/
def ideaBlocksOf (cleaned : List Char) : List (List Char) :=
  (splitIdea cleaned).filter (fun b => !(trimL b).isEmpty)

/-- First case-insensitive occurrence of `label`; returns the suffix after
the matched label, or `none`. -/
def findLabelCi (label : List Char) : List Char → Option (List Char)
  | [] => if startsWithCi label [] then some [] else none
  | c :: rest =>
    if startsWithCi label (c :: rest) then some ((c :: rest).drop label.length)
    else findLabelCi label rest

/-- Lookahead `(?=\s*NEXT|$)` of the field regexes at the current position:
either end of input, or optional whitespace followed by the next label,
case-insensitively. -/
def lookaheadOk (next : List Char) (s : List Char) : Bool :=
  s.isEmpty || startsWithCi next (s.dropWhile jsWs)

/-- Lazy capture `(.*?)`: consume until the lookahead holds. -/
def captureUntil (next : List Char) : List Char → List Char
  | [] => []
  | c :: rest => if lookaheadOk next (c :: rest) then [] else c :: captureUntil next rest

/-- Capture group of `/LABEL\s*(.*?)(?=\s*NEXT|$)/i` applied to `s`
(aiAgent.js lines 31-37): find the label, skip the greedy whitespace run,
capture lazily up to the next label or the end. -/
def matchField (label next s : List Char) : Option (List Char) :=
  (findLabelCi label s).map (fun rest => captureUntil next (rest.dropWhile jsWs))

/-- Capture group of the final greedy `/summary:\s*(.*)/i` (line 38). -/
def matchToEnd (label s : List Char) : Option (List Char) :=
  (findLabelCi label s).map (fun rest => rest.dropWhile jsWs)

/-- One formatted idea record (spec 3, IdeaRecord). -/
structure IdeaRecord where
  name : List Char
  concept : List Char
  keyFeatures : List Char
  targetMarket : List Char
  usp : List Char
  monetization : List Char
  challenges : List Char
  summary : List Char
deriving DecidableEq

/-- Sentinel for an unextractable field. -/
def sentinelNA : List Char := "N/A".data

/-- Embedding of `.replace(/[\*\-]/g, '')` on the idea-name capture
(line 42). -/
def stripPunct (l : List Char) : List Char := l.filter (fun c => !(c = '*' || c = '-'))

/-- Capture-or-default for the seven plain fields (lines 43-49). -/
def fieldOr (m : Option (List Char)) : List Char :=
  match m with
  | some c => trimL c
  | none => sentinelNA

/-- Field extraction for one block (aiAgent.js lines 29-49); `index` is the
0-based block index and `fullBlock` already carries the re-added prefix. -/
def extractRecord (index : Nat) (fullBlock : List Char) : IdeaRecord where
  name :=
    match matchField "Idea Name:".data "Concept:".data fullBlock with
    | some c => trimL (stripPunct c)
    | none => "Idea ".data ++ natChars (index + 1)
  concept := fieldOr (matchField "Concept:".data "Key Features:".data fullBlock)
  keyFeatures := fieldOr (matchField "Key Features:".data "Target Market:".data fullBlock)
  targetMarket :=
    fieldOr (matchField "Target Market:".data "Unique Value Proposition:".data fullBlock)
  usp := fieldOr (matchField "Unique Value Proposition:".data "Monetization:".data fullBlock)
  monetization :=
    fieldOr (matchField "Monetization:".data "Potential Challenges/Considerations:".data fullBlock)
  challenges :=
    fieldOr (matchField "Potential Challenges/Considerations:".data "Summary:".data fullBlock)
  summary := fieldOr (matchToEnd "Summary:".data fullBlock)

/-- Re-addition of the split-off label: `` `Idea Name:${block.trim()}` ``
(line 27). -/
def fullBlockOf (b : List Char) : List Char := ideaLabel ++ trimL b

/-- Pieces of the output template of lines 52-70, literals alternating with
the record's fields. -/
def renderPieces (index : Nat) (r : IdeaRecord) : List (List Char) :=
  [ "\n**".data ++ natChars (index + 1) ++ ". Idea Name:** ".data
  , r.name
  , "\n\n  **Concept:** ".data
  , r.concept
  , "\n\n  **Key Features:** ".data
  , r.keyFeatures
  , "\n\n  **Target Market:** ".data
  , r.targetMarket
  , "\n\n  **Unique Value Proposition:** ".data
  , r.usp
  , "\n\n  **Monetization:** ".data
  , r.monetization
  , "\n\n  **Potential Challenges/Considerations:** ".data
  , r.challenges
  , "\n\n  **Summary:** ".data
  , r.summary
  , "\n\n---\n".data ]

/-- Concatenation of a piece list. -/
def concatAll (l : List (List Char)) : List Char := l.foldr (· ++ ·) []

/-- Rendering of one record through the template of lines 52-70. -/
def renderRecord (index : Nat) (r : IdeaRecord) : List Char :=
  concatAll (renderPieces index r)

/-- Embedding of `formatResponse` (aiAgent.js lines 15-74): collapse
whitespace and trim, split into blocks, extract and render each record, and
trim the accumulated output. -/
def formatL (text : List Char) : List Char :=
  let cleaned := trimL (collapseWs text)
  let blocks := ideaBlocksOf cleaned
  trimL (concatAll
    ((blocks.enum).map (fun p => renderRecord p.1 (extractRecord p.1 (fullBlockOf p.2)))))

/-- String-level `formatResponse`. -/
def formatResponse (s : String) : String := ⟨formatL s.data⟩

/-- A field capture that renders to real content: the regex matched and the
trimmed capture is neither blank nor the sentinel itself. -/
def populatedCapture (m : Option (List Char)) : Bool :=
  match m with
  | some c => !(trimL c).isEmpty && !(trimL c == sentinelNA)
  | none => false

/-- Same for the idea-name capture, which is additionally punctuation-stripped. -/
def populatedName (m : Option (List Char)) : Bool :=
  match m with
  | some c => !(trimL (stripPunct c)).isEmpty && !(trimL (stripPunct c) == sentinelNA)
  | none => false

/-- A block on which all eight label regexes succeed with real content: the
code-level reading of "correctly labeled with every label followed by
content". -/
def populatedBlock (fb : List Char) : Bool :=
  populatedName (matchField "Idea Name:".data "Concept:".data fb)
  && populatedCapture (matchField "Concept:".data "Key Features:".data fb)
  && populatedCapture (matchField "Key Features:".data "Target Market:".data fb)
  && populatedCapture (matchField "Target Market:".data "Unique Value Proposition:".data fb)
  && populatedCapture (matchField "Unique Value Proposition:".data "Monetization:".data fb)
  && populatedCapture
    (matchField "Monetization:".data "Potential Challenges/Considerations:".data fb)
  && populatedCapture
    (matchField "Potential Challenges/Considerations:".data "Summary:".data fb)
  && populatedCapture (matchToEnd "Summary:".data fb)

/-- The eight fields of a record, in template order. -/
def recordFields (r : IdeaRecord) : List (List Char) :=
  [r.name, r.concept, r.keyFeatures, r.targetMarket,
    r.usp, r.monetization, r.challenges, r.summary]

/-! ## The agent `talkAs`

Embedding of `talkAs` (aiAgent.js lines 83-217).  The language-model call is
the `modelOutcome` parameter (`Except.error` for a rejected promise), and
`createCalendarEvent` is the `createEvent` parameter, applied to the
normalized event details.  Note the scope of the inner `try`/`catch` (lines
162-205): a throw from `JSON.parse`, from the repair step or from
`createCalendarEvent` is caught there and falls through to
`formatResponse(rawResponse)`; only a rejected model call reaches the outer
`catch` (lines 213-216), which RETURNS the warning string instead of
re-throwing. -/

structure AuthTokens where
  access_token : Option String
  refresh_token : Option String := none
  expiry_date : Option Int := none
deriving DecidableEq

/-- Check of aiAgent.js line 166: `!userAuthTokens || !userAuthTokens.access_token`
(negated): the tokens object exists and its `access_token` is truthy. -/
def tokensOk (t : Option AuthTokens) : Bool :=
  match t with
  | some tk =>
    match tk.access_token with
    | some s => !(s == "")
    | none => false
  | none => false

/-- Created-event resource as read by line 198 (`summary`, `htmlLink`). -/
structure CalendarEvent where
  summary : String
  htmlLink : String
deriving DecidableEq

/-- Literal of line 167. -/
def authMessage : String :=
  "I can help schedule that, but I need access to your Google Calendar. Please connect your Google account first by visiting /auth/google/calendar."

/-- Literal of line 198. -/
def confirmMessage (ev : CalendarEvent) : String :=
  "I've successfully added \"" ++ ev.summary
    ++ "\" to your Google Calendar! You can view it here: " ++ ev.htmlLink

/-- Literal of line 215 (the outer catch). -/
def personaFailMessage (persona msg : String) : String :=
  "⚠️ " ++ persona ++ " failed to respond: " ++ msg

/-- Embedding of `talkAs`.  It always returns a string: no error escapes. -/
def talkAs (parse : List Char → Option Json) (toISO : JsDateTime → String)
    (now : JsDateTime) (currentTZ : String) (persona : String)
    (modelOutcome : Except String String) (tokens : Option AuthTokens)
    (createEvent : Json → Except String CalendarEvent) : String :=
  match modelOutcome with
  | .error e => personaFailMessage persona e
  | .ok raw =>
    match classify parse raw.data with
    | .ideaText _ => formatResponse raw
    | .event ed =>
      if !tokensOk tokens then authMessage
      else
        match normalize toISO now currentTZ ed with
        | .error _ => formatResponse raw
        | .ok ed2 =>
          match createEvent ed2 with
          | .error _ => formatResponse raw
          | .ok ev => confirmMessage ev

/-! ## Chat orchestrator

Embedding of the `/chat` retry loop (server lines 273-325).  The attempt
collaborator `att i` is the outcome of awaiting `talkAs` in the iteration
whose entry value of `retryCount` is `i` (`Except.error` for a rejection).
The loop invariant `fuel = MAX_RETRIES - retryCount` makes the `while`
condition `retryCount < MAX_RETRIES` structural. -/

def MAX_RETRIES : Nat := 3

/-- Failure marker of the success predicate (server line 289). -/
def failureMarker : String := "1. Idea Name: N/A"

/-- Confirmation phrase of the success predicate (server line 289). -/
def successPhrase : String := "I've successfully added"

/-- Success predicate of server line 289. -/
def successPred (r : String) : Bool :=
  strIncludes r successPhrase || !strIncludes r failureMarker

/-- Error text of server lines 300-307 (`err.message || "Please check …"`). -/
def apiErrorText (e : String) : String :=
  "Failed to get a complete AI response after " ++ toString MAX_RETRIES
    ++ " attempts due to an API error: "
    ++ (if e = "" then "Please check your server or API key." else e)

/-- Error text of server lines 313-321 (loop exhausted without success). -/
def exhaustedText : String :=
  "Failed to get a complete AI response after " ++ toString MAX_RETRIES
    ++ " attempts. Please try again or refine your request."

/-- Observable outcome of one `/chat` request: the reply text, whether it was
sent as a success (`res.json`) or as a 500 error, the back-off waits issued
(in ms, in order), and the number of `talkAs` calls made. -/
structure ChatResult where
  reply : String
  ok : Bool
  waits : List Nat
  calls : Nat
deriving DecidableEq, Repr

/-- One-to-one embedding of the `while` loop of server lines 285-311. -/
def chatLoop (att : Nat → Except String String) :
    Nat → Nat → List Nat → Nat → ChatResult
  | 0, _, waits, calls => ⟨exhaustedText, false, waits, calls⟩
  | fuel + 1, rc, waits, calls =>
    match att rc with
    | .ok r =>
      if successPred r then ⟨r, true, waits, calls + 1⟩
      else chatLoop att fuel (rc + 1) (waits ++ [1000 * (rc + 1)]) (calls + 1)
    | .error e =>
      if MAX_RETRIES ≤ rc + 1 then ⟨apiErrorText e, false, waits, calls + 1⟩
      else chatLoop att fuel (rc + 1) (waits ++ [1000 * (rc + 1)]) (calls + 1)

/-- A full `/chat` run: `retryCount = 0`, no waits, no calls yet. -/
def chatRun (att : Nat → Except String String) : ChatResult :=
  chatLoop att MAX_RETRIES 0 [] 0

/-! ## Concrete inputs used in counterexamples and witnesses -/

/-- Stub `toISOString` collaborator for concrete runs. -/
def isoStub : JsDateTime → String := fun _ => "1970-01-02T09:00:00.000Z"

/-- Stub `new Date()` for concrete runs. -/
def now0 : JsDateTime := ⟨0, 0, 0, 0, 0⟩

/-- Compact timestamp used by the spec for the repair example; note that it
contains a `-` (the negative offset). -/
def compactClaimInput : String := "20250810T100000-0700"

/-- Event details whose start carries the spec's compact example and whose
end is plain ISO. -/
def c3Event : Json :=
  .obj [("summary", .str "Workshop"),
    ("start", .obj [("dateTime", .str compactClaimInput),
      ("timeZone", .str "America/Los_Angeles")]),
    ("end", .obj [("dateTime", .str "2025-08-10T11:00:00-07:00"),
      ("timeZone", .str "America/Los_Angeles")])]

/-- Model output carrying a fenced calendar-event JSON whose `eventDetails`
field is present but `null`. -/
def c2RawNullDetails : String :=
  "Sure! ```json\n\x7b\"type\": \"calendar_event\", \"eventDetails\": null\x7d\n``` done"

/-- The fenced block the regex extracts from `c2RawNullDetails`. -/
def c2Block : String := "\x7b\"type\": \"calendar_event\", \"eventDetails\": null\x7d"

/-- Parse of `c2Block` (what `JSON.parse` returns on it). -/
def c2Parsed : Json :=
  .obj [("type", .str "calendar_event"), ("eventDetails", .null)]

/-- Model output carrying a well-formed calendar-event block. -/
def c2GoodRaw : String :=
  "```json \x7b\"type\": \"calendar_event\", \"eventDetails\": \x7b\"summary\": \"Lunch\"\x7d\x7d ```"

/-- Event details inside `c2GoodRaw`. -/
def c2GoodDetails : Json := .obj [("summary", .str "Lunch")]

/-- Stub `createCalendarEvent` collaborator that succeeds. -/
def calStub : Json → Except String CalendarEvent :=
  fun _ => .ok ⟨"Lunch", "https://calendar.example/evt1"⟩

/-- Model output with three correctly labeled idea blocks. -/
def threeIdeasText : String :=
  "1. Idea Name: Alpha Concept: c1 Key Features: k1 Target Market: t1 Unique Value Proposition: u1 Monetization: m1 Potential Challenges/Considerations: p1 Summary: s1 2. Idea Name: Beta Concept: c2 Key Features: k2 Target Market: t2 Unique Value Proposition: u2 Monetization: m2 Potential Challenges/Considerations: p2 Summary: s2 3. Idea Name: Gamma Concept: c3 Key Features: k3 Target Market: t3 Unique Value Proposition: u3 Monetization: m3 Potential Challenges/Considerations: p3 Summary: s3"

/-- First block the splitter finds in `threeIdeasText`. -/
def threeIdeasB1 : String :=
  " Alpha Concept: c1 Key Features: k1 Target Market: t1 Unique Value Proposition: u1 Monetization: m1 Potential Challenges/Considerations: p1 Summary: s1 "

/-- Second block the splitter finds in `threeIdeasText`. -/
def threeIdeasB2 : String :=
  " Beta Concept: c2 Key Features: k2 Target Market: t2 Unique Value Proposition: u2 Monetization: m2 Potential Challenges/Considerations: p2 Summary: s2 "

/-- Third block the splitter finds in `threeIdeasText`. -/
def threeIdeasB3 : String :=
  " Gamma Concept: c3 Key Features: k3 Target Market: t3 Unique Value Proposition: u3 Monetization: m3 Potential Challenges/Considerations: p3 Summary: s3"

/-- Input whose stripped idea-name capture "1.* Idea Name: N/A" becomes the
orchestrator's failure marker once '*' is removed. -/
def c10Input : String := "1. Idea Name: 1.* Idea Name: N/A Concept: x"

/-- No non-trivial prefix of `m` is a suffix of the piece `c`: a marker
occurrence in a concatenation cannot start inside `c` and continue past its
right edge. -/
def leftSafe (m c : List Char) : Prop :=
  ∀ k, k < m.length → 0 < k → ¬ m.take k <:+ c

instance (m c : List Char) : Decidable (leftSafe m c) :=
  inferInstanceAs (Decidable (∀ k, k < m.length → 0 < k → ¬ m.take k <:+ c))

/-- Chain condition on the pieces of a concatenation: at each boundary,
either the left piece is `leftSafe`, or whatever follows starts with a
newline (which the marker does not contain). -/
def chainOk (m : List Char) : List (List Char) → Prop
  | [] => True
  | c :: rest => (leftSafe m c ∨ (concatAll rest).head? = some '\n') ∧ chainOk m rest

/-! ## Basic lemmas about the string primitives -/

theorem startsWithL_iff {p s : List Char} : startsWithL p s = true ↔ p <+: s := by
  induction p generalizing s with
  | nil => simp [startsWithL]
  | cons a ps ih =>
    cases s with
    | nil => simp [startsWithL]
    | cons c cs => simp [startsWithL, ih, List.cons_prefix_cons]

theorem containsSub_iff {p s : List Char} : containsSub p s = true ↔ p <:+: s := by
  induction s with
  | nil => simp [containsSub, List.infix_nil, List.isEmpty_iff]
  | cons c cs ih => simp [containsSub, startsWithL_iff, ih, List.infix_cons_iff]

theorem containsSub_false {p s : List Char} : containsSub p s = false ↔ ¬ p <:+: s := by
  rw [← containsSub_iff]
  cases containsSub p s <;> simp

theorem infix_append_cases {m a b : List Char} (h : m <:+: a ++ b) :
    m <:+: a ∨ m <:+: b ∨
      ∃ k, 0 < k ∧ k < m.length ∧ m.take k <:+ a ∧ m.drop k <+: b := by
  obtain ⟨t, u, htu⟩ := h
  have htu2 : t ++ (m ++ u) = a ++ b := by rw [← List.append_assoc, htu]
  have hA : a = (t ++ (m ++ u)).take a.length := by rw [htu2]; simp
  have hB : b = (t ++ (m ++ u)).drop a.length := by rw [htu2]; simp
  by_cases hL : t.length + m.length ≤ a.length
  · left
    set k := a.length - t.length with hk
    have hms : m.length ≤ k := by omega
    have hsplit : a.length = t.length + k := by omega
    have ha : a = t ++ (m ++ u.take (k - m.length)) := by
      conv_lhs => rw [hA]
      rw [hsplit, List.take_append, List.take_append_eq_append_take,
        List.take_of_length_le hms]
    exact ⟨t, u.take (k - m.length), by rw [List.append_assoc]; exact ha.symm⟩
  · by_cases hR : a.length ≤ t.length
    · right; left
      have hb2 : t.drop a.length ++ (m ++ u) = b := by
        conv_rhs => rw [hB]
        rw [List.drop_append_of_le_length hR]
      exact ⟨t.drop a.length, u, by rw [List.append_assoc]; exact hb2⟩
    · right; right
      push_neg at hR hL
      set k := a.length - t.length with hk
      have hk1 : 0 < k := by omega
      have hk2 : k < m.length := by omega
      have hsplit : a.length = t.length + k := by omega
      have hta : t ++ m.take k = a := by
        conv_rhs => rw [hA]
        rw [hsplit, List.take_append, List.take_append_eq_append_take]
        have h0 : k - m.length = 0 := by omega
        rw [h0]
        simp
      have htb : m.drop k ++ u = b := by
        conv_rhs => rw [hB]
        rw [hsplit, List.drop_append, List.drop_append_eq_append_drop]
        have h0 : k - m.length = 0 := by omega
        rw [h0]
        simp
      exact ⟨k, hk1, hk2, ⟨t, hta⟩, ⟨u, htb⟩⟩

theorem suffix_append_le {m a b : List Char} (h : m <:+ a ++ b)
    (hl : m.length ≤ b.length) : m <:+ b := by
  obtain ⟨t, ht⟩ := h
  have hlen : a.length ≤ t.length := by
    have := congrArg List.length ht
    simp at this
    omega
  have : b = (a ++ b).drop a.length := by simp
  rw [this, ← ht, List.drop_append_of_le_length hlen]
  exact ⟨t.drop a.length, rfl⟩

theorem getLast?_of_suffix {m l : List Char} (h : m <:+ l) (hm : m ≠ []) :
    l.getLast? = m.getLast? := by
  obtain ⟨t, rfl⟩ := h
  rw [List.getLast?_append]
  cases hx : m.getLast? with
  | none => exact absurd (List.getLast?_eq_none_iff.mp hx) hm
  | some x => rfl

theorem trimL_within (l : List Char) : trimL l <:+: l := by
  unfold trimL
  have h1 : l.dropWhile jsWs <:+ l := List.dropWhile_suffix jsWs
  have h2 : (l.dropWhile jsWs).reverse.dropWhile jsWs <:+ (l.dropWhile jsWs).reverse :=
    List.dropWhile_suffix jsWs
  have h3 : ((l.dropWhile jsWs).reverse.dropWhile jsWs).reverse <+: l.dropWhile jsWs := by
    rw [← List.reverse_reverse ((l.dropWhile jsWs).reverse.dropWhile jsWs)] at h2
    exact List.reverse_suffix.mp h2
  exact h3.isInfix.trans h1.isInfix

theorem not_infix_append {m a b : List Char} (ha : ¬ m <:+: a) (hb : ¬ m <:+: b)
    (hs : ∀ k, 0 < k → k < m.length → ¬ (m.take k <:+ a ∧ m.drop k <+: b)) :
    ¬ m <:+: a ++ b := by
  intro h
  rcases infix_append_cases h with h1 | h1 | ⟨k, hk1, hk2, hk3, hk4⟩
  · exact ha h1
  · exact hb h1
  · exact hs k hk1 hk2 ⟨hk3, hk4⟩

theorem eq_two_of_length {α : Type} {l : List α} (h : l.length = 2) :
    ∃ a b, l = [a, b] := by
  cases l with
  | nil => simp at h
  | cons a t =>
    cases t with
    | nil => simp at h
    | cons b t =>
      cases t with
      | nil => exact ⟨a, b, rfl⟩
      | cons c t => simp at h

theorem eq_four_of_length {α : Type} {l : List α} (h : l.length = 4) :
    ∃ a b c d, l = [a, b, c, d] := by
  cases l with
  | nil => simp at h
  | cons a t =>
    cases t with
    | nil => simp at h
    | cons b t =>
      cases t with
      | nil => simp at h
      | cons c t =>
        cases t with
        | nil => simp at h
        | cons d t =>
          cases t with
          | nil => exact ⟨a, b, c, d, rfl⟩
          | cons e t => simp at h

/-! ## Lemmas about the JSON model -/

theorem lookupField_setFieldA_same (l : List (String × Json)) (k : String) (v : Json) :
    lookupField (setFieldA l k v) k = some v := by
  induction l with
  | nil => simp [setFieldA, lookupField]
  | cons p rest ih =>
    obtain ⟨k2, w⟩ := p
    by_cases h : k2 = k <;> simp [setFieldA, lookupField, h, ih]

theorem lookupField_setFieldA_other (l : List (String × Json)) (k k2 : String) (v : Json)
    (h : k2 ≠ k) : lookupField (setFieldA l k v) k2 = lookupField l k2 := by
  induction l with
  | nil => simp [setFieldA, lookupField, Ne.symm h]
  | cons p rest ih =>
    obtain ⟨k3, w⟩ := p
    by_cases h3 : k3 = k
    · subst h3
      simp [setFieldA, lookupField, Ne.symm h]
    · simp [setFieldA, lookupField, h3, ih]

theorem jGet_jSet_same (fields : List (String × Json)) (k : String) (v : Json) :
    jGet (jSet (.obj fields) k v) k = some v := by
  simp [jSet, jGet, lookupField_setFieldA_same]

theorem jGet_jSet_other (fields : List (String × Json)) (k k2 : String) (v : Json)
    (h : k2 ≠ k) : jGet (jSet (.obj fields) k v) k2 = jGet (.obj fields) k2 := by
  simp [jSet, jGet, lookupField_setFieldA_other _ _ _ _ h]

theorem jsTruthy_of_jGet_some {j : Json} {k : String} {v : Json}
    (h : jGet j k = some v) : jsTruthy j = true := by
  cases j <;> simp [jGet, jsTruthy] at h ⊢

theorem jSet_isObj {j : Json} {k : String} {v : Json} (h : jGet j k = some v)
    (k2 : String) (w : Json) : ∃ l, jSet j k2 w = .obj l := by
  cases j <;> simp [jGet] at h
  exact ⟨_, rfl⟩

/-! ## Claim C4 (idea formatter on unlabeled input)

The splitter never loses non-blank text: an input with no recognizable
"<number>. Idea Name:" label becomes ONE block (the whole text), not zero, so
format's output is empty exactly when the filtered block list is empty (blank
input, or input whose segments are all blank, such as a bare label). -/

/-- Claim C4 counterexample: the input "hello" contains no
"<number>. Idea Name:" label — the splitter returns the whole text as its
single segment — yet `format` returns a non-empty rendering, contradicting
the claim that unlabeled input yields empty output. -/
theorem C4_counterexample :
    splitIdea (trimL (collapseWs "hello".data)) = ["hello".data]
      ∧ formatResponse "hello" ≠ "" := by
  exact ⟨by decide, by decide⟩

/-! ## Claim C8 (field defaults and idea-name cleaning) -/

/-- Claim C8: in an extracted record every field whose label regex fails
defaults to "N/A", except the idea name, which defaults to
"Idea {1-based index}"; a successful idea-name capture is cleaned by removing
every '*' and '-' and trimming. -/
theorem C8_field_defaults (i : Nat) (b : List Char) :
    (matchField "Concept:".data "Key Features:".data b = none →
      (extractRecord i b).concept = sentinelNA)
    ∧ (matchField "Key Features:".data "Target Market:".data b = none →
      (extractRecord i b).keyFeatures = sentinelNA)
    ∧ (matchField "Target Market:".data "Unique Value Proposition:".data b = none →
      (extractRecord i b).targetMarket = sentinelNA)
    ∧ (matchField "Unique Value Proposition:".data "Monetization:".data b = none →
      (extractRecord i b).usp = sentinelNA)
    ∧ (matchField "Monetization:".data "Potential Challenges/Considerations:".data b = none →
      (extractRecord i b).monetization = sentinelNA)
    ∧ (matchField "Potential Challenges/Considerations:".data "Summary:".data b = none →
      (extractRecord i b).challenges = sentinelNA)
    ∧ (matchToEnd "Summary:".data b = none →
      (extractRecord i b).summary = sentinelNA)
    ∧ (matchField "Idea Name:".data "Concept:".data b = none →
      (extractRecord i b).name = "Idea ".data ++ natChars (i + 1))
    ∧ (∀ c, matchField "Idea Name:".data "Concept:".data b = some c →
      (extractRecord i b).name = trimL (stripPunct c)) := by
  refine ⟨?_, ?_, ?_, ?_, ?_, ?_, ?_, ?_, ?_⟩
  · intro h; simp [extractRecord, fieldOr, h]
  · intro h; simp [extractRecord, fieldOr, h]
  · intro h; simp [extractRecord, fieldOr, h]
  · intro h; simp [extractRecord, fieldOr, h]
  · intro h; simp [extractRecord, fieldOr, h]
  · intro h; simp [extractRecord, fieldOr, h]
  · intro h; simp [extractRecord, fieldOr, h]
  · intro h; simp [extractRecord, h]
  · intro c h; simp [extractRecord, h]

/-- Witness for C8: a block missing most labels gets "N/A" fields, a block
with no idea name gets the indexed default, and a name capture with stray
'*' and '-' is cleaned. -/
theorem C8_witness :
    (extractRecord 0 "Idea Name: *Neat- App* Concept: x".data).keyFeatures = sentinelNA
    ∧ (extractRecord 4 "no labels at all".data).name = "Idea ".data ++ natChars 5
    ∧ (extractRecord 0 "Idea Name: *Neat- App* Concept: x".data).name
        = trimL (stripPunct "*Neat- App*".data) :=
  ⟨(C8_field_defaults 0 _).2.1 (by decide),
   (C8_field_defaults 4 _).2.2.2.2.2.2.2.1 (by decide),
   (C8_field_defaults 0 _).2.2.2.2.2.2.2.2 "*Neat- App*".data (by decide)⟩

/-! ## Claim C9 (normalize on already-ISO details) -/

/-- Claim C9: when start and end are present with string dateTimes that
already contain a '-' or a ':', normalize passes the event details through
unmodified; in particular applying it twice equals applying it once. -/
theorem C9_normalize_idempotent (toISO : JsDateTime → String) (now : JsDateTime)
    (tz : String) (ed s e : Json) (sdt edt : String)
    (hs : jGet ed "start" = some s) (he : jGet ed "end" = some e)
    (hsd : jGet s "dateTime" = some (.str sdt))
    (hed : jGet e "dateTime" = some (.str edt))
    (hs1 : (containsSub "-".data sdt.data || containsSub ":".data sdt.data) = true)
    (he1 : (containsSub "-".data edt.data || containsSub ":".data edt.data) = true) :
    normalize toISO now tz ed = .ok ed
    ∧ (normalize toISO now tz ed).bind (normalize toISO now tz)
        = normalize toISO now tz ed := by
  have hsne : sdt ≠ "" := by
    intro h0
    subst h0
    have hz : ("" : String).data = [] := rfl
    rw [hz] at hs1
    exact absurd hs1 (by decide)
  have hedne : edt ≠ "" := by
    intro h0
    subst h0
    have hz : ("" : String).data = [] := rfl
    rw [hz] at he1
    exact absurd he1 (by decide)
  have hts : jsTruthy s = true := jsTruthy_of_jGet_some hsd
  have hte : jsTruthy e = true := jsTruthy_of_jGet_some hed
  have hgs : repairGuard sdt = false := by
    unfold repairGuard
    rw [← Bool.not_or, hs1]
    rfl
  have hge : repairGuard edt = false := by
    unfold repairGuard
    rw [← Bool.not_or, he1]
    rfl
  have hsdt : jsTruthy (Json.str sdt) = true := by simp [jsTruthy, hsne]
  have hedt : jsTruthy (Json.str edt) = true := by simp [jsTruthy, hedne]
  have hg : defaultsGuard ed = false := by
    simp [defaultsGuard, hs, he, hsd, hed, jTruthy, hts, hte, hsdt, hedt]
  have hrs : repairField ed "start" = .ok ed := by
    simp [repairField, hs, hts, hsd, hsdt, hgs]
  have hre : repairField ed "end" = .ok ed := by
    simp [repairField, he, hte, hed, hedt, hge]
  have h1 : normalize toISO now tz ed = .ok ed := by
    simp [normalize, hg, hrs, hre]
  refine ⟨h1, ?_⟩
  rw [h1]
  simpa [Except.bind] using h1

/-- Witness for C9: a concrete already-ISO event passes through normalize
unchanged, twice as once. -/
theorem C9_witness :
    normalize isoStub now0 "UTC" c3Event = .ok c3Event
    ∧ (normalize isoStub now0 "UTC" c3Event).bind (normalize isoStub now0 "UTC")
        = normalize isoStub now0 "UTC" c3Event :=
  C9_normalize_idempotent isoStub now0 "UTC" c3Event _ _
    compactClaimInput "2025-08-10T11:00:00-07:00"
    rfl rfl rfl rfl (by decide) (by decide)

/-! ## Claim C3 (compact-date repair) -/

/-- Claim C3 counterexample: on the spec's own example
"20250810T100000-0700" the repair does NOT fire: the string contains a '-'
(its negative offset), the guard of aiAgent.js line 187 is false, and
normalize passes the event through unchanged instead of producing
"2025-08-10T10:00:00-0700". -/
theorem C3_counterexample :
    repairGuard compactClaimInput = false
    ∧ normalize isoStub now0 "UTC" c3Event = .ok c3Event
    ∧ (jGet c3Event "start").bind (jGet · "dateTime") = some (.str compactClaimInput)
    ∧ compactClaimInput ≠ "2025-08-10T10:00:00-0700" :=
  ⟨by decide, by rfl, by rfl, by decide⟩

/-- Claim C3 (amended): the repair step rewrites a dateTime that satisfies
its guard (no '-' and no ':' anywhere, so in particular a non-negative
offset) of compact shape YYYYMMDDTHHMMSS followed by an arbitrary offset
suffix, by inserting '-' into the date digits and ':' into the time digits
and keeping the offset suffix unchanged. -/
theorem C3_repair_inserts_separators
    (y1 y2 y3 hh mi ss off : List Char)
    (h1 : y1.length = 4) (h2 : y2.length = 2) (h3 : y3.length = 2)
    (h4 : hh.length = 2) (h5 : mi.length = 2) (h6 : ss.length = 2)
    (_hg : repairGuard ⟨y1 ++ (y2 ++ (y3 ++ 'T' :: (hh ++ (mi ++ (ss ++ off)))))⟩ = true) :
    repairDateStr (y1 ++ (y2 ++ (y3 ++ 'T' :: (hh ++ (mi ++ (ss ++ off))))))
      = y1 ++ '-' :: (y2 ++ '-' :: (y3 ++ 'T' ::
          (hh ++ ':' :: (mi ++ ':' :: (ss ++ off))))) := by
  clear _hg
  obtain ⟨a1, a2, a3, a4, rfl⟩ := eq_four_of_length h1
  obtain ⟨b1, b2, rfl⟩ := eq_two_of_length h2
  obtain ⟨c1, c2, rfl⟩ := eq_two_of_length h3
  obtain ⟨d1, d2, rfl⟩ := eq_two_of_length h4
  obtain ⟨e1, e2, rfl⟩ := eq_two_of_length h5
  obtain ⟨f1, f2, rfl⟩ := eq_two_of_length h6
  rfl

/-- Witness for C3: the corrected compact example, with a '+' offset, is
repaired to dashed-and-colon ISO form with the offset preserved. -/
theorem C3_witness :
    repairDateStr "20250810T100000+0700".data = "2025-08-10T10:00:00+0700".data :=
  C3_repair_inserts_separators "2025".data "08".data "10".data "10".data "00".data
    "00".data "+0700".data rfl rfl rfl rfl rfl rfl (by decide)

/-! ## Claim C7 (defaults for missing start/end) -/

theorem repairField_noop_iso (ed : Json) (f : String) (dt : String) (tzv : Json)
    (hf : jGet ed f = some (.obj [("dateTime", .str dt), ("timeZone", tzv)]))
    (hdash : containsSub "-".data dt.data = true) :
    repairField ed f = .ok ed := by
  have hne : dt ≠ "" := by
    intro h0
    subst h0
    have hz : ("" : String).data = [] := rfl
    rw [hz] at hdash
    exact absurd hdash (by decide)
  have hguard : repairGuard dt = false := by
    unfold repairGuard
    rw [hdash]
    rfl
  simp only [repairField]
  rw [hf]
  simp [jsTruthy, jGet, lookupField, hne, hguard]

/-- Claim C7: whenever start or end is absent (or falsy) or either dateTime
is missing (or falsy), normalize replaces BOTH start and end: start becomes
tomorrow (day + 1) at 09:00:00.000 local, end becomes exactly one hour later
(10:00 the same day), and both carry `eventDetails.timeZone` when truthy,
else the fallback current zone (`tzSelect`).  The hypothesis on `toISO` is
that ISO serializations contain a '-', which makes the later repair step a
no-op on the defaulted values. -/
theorem C7_normalize_defaults (toISO : JsDateTime → String) (now : JsDateTime)
    (tz : String) (fields : List (String × Json))
    (hmiss : defaultsGuard (.obj fields) = true)
    (hiso : ∀ d, containsSub "-".data (toISO d).data = true) :
    ∃ ed2,
      normalize toISO now tz (.obj fields) = .ok ed2
      ∧ jGet ed2 "start"
          = some (.obj [("dateTime", .str (toISO ⟨now.day + 1, 9, 0, 0, 0⟩)),
              ("timeZone", tzSelect (.obj fields) tz)])
      ∧ jGet ed2 "end"
          = some (.obj [("dateTime", .str (toISO ⟨now.day + 1, 10, 0, 0, 0⟩)),
              ("timeZone", tzSelect (.obj fields) tz)])
      ∧ setHoursFull (addOneDay now) 9 = ⟨now.day + 1, 9, 0, 0, 0⟩
      ∧ setHoursOnly (setHoursFull (addOneDay now) 9)
            ((setHoursFull (addOneDay now) 9).hour + 1) = ⟨now.day + 1, 10, 0, 0, 0⟩ := by
  have hds : setHoursFull (addOneDay now) 9 = ⟨now.day + 1, 9, 0, 0, 0⟩ := by
    simp [setHoursFull, addOneDay]
  have hde : setHoursOnly (setHoursFull (addOneDay now) 9)
      ((setHoursFull (addOneDay now) 9).hour + 1) = ⟨now.day + 1, 10, 0, 0, 0⟩ := by
    rw [hds]
    simp [setHoursOnly]
  have hstart : ∀ S E : Json,
      jGet (jSet (jSet (.obj fields) "start" S) "end" E) "start" = some S := by
    intro S E
    rw [show jSet (.obj fields) "start" S = .obj (setFieldA fields "start" S) from rfl,
      jGet_jSet_other _ _ _ _ (by decide)]
    exact jGet_jSet_same fields "start" S
  have hend : ∀ S E : Json,
      jGet (jSet (jSet (.obj fields) "start" S) "end" E) "end" = some E := by
    intro S E
    rw [show jSet (.obj fields) "start" S = .obj (setFieldA fields "start" S) from rfl]
    exact jGet_jSet_same _ "end" E
  refine ⟨_, ?_, hstart _ _, hend _ _, hds, hde⟩
  simp only [normalize]
  rw [if_pos hmiss, hde, hds]
  rw [repairField_noop_iso _ "start" _ _ (hstart _ _) (hiso _)]
  exact repairField_noop_iso _ "end" _ _ (hend _ _) (hiso _)

/-- Witness for C7: an event with no start/end at all is defaulted, with the
event's own time zone selected. -/
theorem C7_witness :
    ∃ ed2,
      normalize isoStub now0 "America/New_York"
          (.obj [("summary", Json.str "Lunch"), ("timeZone", Json.str "America/Los_Angeles")])
        = .ok ed2
      ∧ jGet ed2 "start"
          = some (.obj [("dateTime", .str (isoStub ⟨now0.day + 1, 9, 0, 0, 0⟩)),
              ("timeZone", tzSelect (.obj [("summary", Json.str "Lunch"),
                ("timeZone", Json.str "America/Los_Angeles")]) "America/New_York")])
      ∧ jGet ed2 "end"
          = some (.obj [("dateTime", .str (isoStub ⟨now0.day + 1, 10, 0, 0, 0⟩)),
              ("timeZone", tzSelect (.obj [("summary", Json.str "Lunch"),
                ("timeZone", Json.str "America/Los_Angeles")]) "America/New_York")])
      ∧ setHoursFull (addOneDay now0) 9 = ⟨now0.day + 1, 9, 0, 0, 0⟩
      ∧ setHoursOnly (setHoursFull (addOneDay now0) 9)
            ((setHoursFull (addOneDay now0) 9).hour + 1) = ⟨now0.day + 1, 10, 0, 0, 0⟩ :=
  C7_normalize_defaults isoStub now0 "America/New_York"
    [("summary", Json.str "Lunch"), ("timeZone", Json.str "America/Los_Angeles")]
    (by decide)
    (fun _ => by
      show containsSub "-".data "1970-01-02T09:00:00.000Z".data = true
      decide)

/-! ## Claim C2 (response classification) -/

theorem isCalendarEventType_iff (o : Option Json) :
    isCalendarEventType o = true ↔ o = some (.str "calendar_event") := by
  cases o with
  | none => simp [isCalendarEventType]
  | some j => cases j <;> simp [isCalendarEventType]

/-- Claim C2 (amended): for every parse collaborator and raw text, classify
yields a calendar-event intent exactly when the raw text has a fenced json
block whose parse succeeds on an object with `type === "calendar_event"` and
an `eventDetails` field that is present AND truthy; in every other case —
including an eventDetails that is present but falsy, such as `null` — the
result is idea-text handling of the unmodified raw text, so no parse error
reaches the caller. -/
theorem C2_classify_characterization (parse : List Char → Option Json)
    (raw : List Char) :
    (∀ ed, classify parse raw = .event ed ↔
      ∃ js j, extractJsonBlock raw = some js ∧ parse js = some j
        ∧ jGet j "type" = some (Json.str "calendar_event")
        ∧ jGet j "eventDetails" = some ed ∧ jsTruthy ed = true)
    ∧ ((∃ ed, classify parse raw = .event ed) ∨ classify parse raw = .ideaText raw) := by
  have main : ∀ ed, classify parse raw = .event ed ↔
      ∃ js j, extractJsonBlock raw = some js ∧ parse js = some j
        ∧ jGet j "type" = some (Json.str "calendar_event")
        ∧ jGet j "eventDetails" = some ed ∧ jsTruthy ed = true := by
    intro ed
    cases hx : extractJsonBlock raw with
    | none =>
      have hcl : classify parse raw = .ideaText raw := by
        simp only [classify, hx]
      constructor
      · intro h
        rw [hcl] at h
        exact ClassifyResult.noConfusion h
      · rintro ⟨js, j, hjs, -⟩
        exact Option.noConfusion hjs
    | some js0 =>
      cases hp : parse js0 with
      | none =>
        have hcl : classify parse raw = .ideaText raw := by
          simp only [classify, hx, hp]
        constructor
        · intro h
          rw [hcl] at h
          exact ClassifyResult.noConfusion h
        · rintro ⟨js, j, hjs, hpj, -⟩
          cases hjs
          rw [hp] at hpj
          exact Option.noConfusion hpj
      | some j0 =>
        cases hed : jGet j0 "eventDetails" with
        | none =>
          have hcl : classify parse raw = .ideaText raw := by
            simp only [classify, hx, hp, hed]
          constructor
          · intro h
            rw [hcl] at h
            exact ClassifyResult.noConfusion h
          · rintro ⟨js, j, hjs, hpj, hty, hedp, htr⟩
            cases hjs
            rw [hp] at hpj
            cases hpj
            rw [hed] at hedp
            exact Option.noConfusion hedp
        | some ed0 =>
          by_cases hc : (isCalendarEventType (jGet j0 "type") && jsTruthy ed0) = true
          · have hcl : classify parse raw = .event ed0 := by
              simp only [classify, hx, hp, hed, hc, if_true]
            have hcc := Bool.and_eq_true_iff.mp hc
            constructor
            · intro h
              rw [hcl] at h
              cases h
              exact ⟨js0, j0, rfl, hp, (isCalendarEventType_iff _).mp hcc.1, hed, hcc.2⟩
            · rintro ⟨js, j, hjs, hpj, hty, hedp, htr⟩
              cases hjs
              rw [hp] at hpj
              cases hpj
              rw [hed] at hedp
              cases hedp
              exact hcl
          · have hcl : classify parse raw = .ideaText raw := by
              simp only [classify, hx, hp, hed]
              rw [if_neg hc]
            constructor
            · intro h
              rw [hcl] at h
              exact ClassifyResult.noConfusion h
            · rintro ⟨js, j, hjs, hpj, hty, hedp, htr⟩
              cases hjs
              rw [hp] at hpj
              cases hpj
              rw [hed] at hedp
              cases hedp
              exact absurd (by rw [(isCalendarEventType_iff _).mpr hty, htr]; rfl) hc
  refine ⟨main, ?_⟩
  by_cases he : ∃ ed, classify parse raw = .event ed
  · exact Or.inl he
  · right
    cases hcl : classify parse raw with
    | event ed0 => exact absurd ⟨ed0, hcl⟩ he
    | ideaText t =>
      have : t = raw := by
        cases hx : extractJsonBlock raw with
        | none =>
          have h2 : classify parse raw = .ideaText raw := by simp only [classify, hx]
          rw [hcl] at h2
          injection h2
        | some js0 =>
          cases hp : parse js0 with
          | none =>
            have h2 : classify parse raw = .ideaText raw := by simp only [classify, hx, hp]
            rw [hcl] at h2
            injection h2
          | some j0 =>
            cases hed : jGet j0 "eventDetails" with
            | none =>
              have h2 : classify parse raw = .ideaText raw := by
                simp only [classify, hx, hp, hed]
              rw [hcl] at h2
              injection h2
            | some ed0 =>
              by_cases hc : (isCalendarEventType (jGet j0 "type") && jsTruthy ed0) = true
              · have h2 : classify parse raw = .event ed0 := by
                  simp only [classify, hx, hp, hed, hc, if_true]
                rw [hcl] at h2
                exact ClassifyResult.noConfusion h2
              · have h2 : classify parse raw = .ideaText raw := by
                  simp only [classify, hx, hp, hed]
                  rw [if_neg hc]
                rw [hcl] at h2
                injection h2
      rw [this]

/-- Claim C2 counterexample: a fenced block whose parse is an object with the
right type and a PRESENT `eventDetails` that is `null` is classified as idea
text, not as an intent — "present" is not enough, the code requires a truthy
value. -/
theorem C2_counterexample :
    extractJsonBlock c2RawNullDetails.data = some c2Block.data
    ∧ parseJsonSimple c2Block.data = some c2Parsed
    ∧ jGet c2Parsed "type" = some (.str "calendar_event")
    ∧ jGet c2Parsed "eventDetails" = some .null
    ∧ classify parseJsonSimple c2RawNullDetails.data = .ideaText c2RawNullDetails.data :=
  ⟨by decide, rfl, rfl, rfl, rfl⟩

/-- Witness for C2: the characterization applied to a well-formed block with
truthy eventDetails yields the intent carrying exactly those details. -/
theorem C2_witness :
    classify parseJsonSimple c2GoodRaw.data = .event c2GoodDetails :=
  ((C2_classify_characterization parseJsonSimple c2GoodRaw.data).1 c2GoodDetails).mpr
    ⟨"\x7b\"type\": \"calendar_event\", \"eventDetails\": \x7b\"summary\": \"Lunch\"\x7d\x7d".data,
      .obj [("type", .str "calendar_event"), ("eventDetails", c2GoodDetails)],
      by decide, rfl, rfl, rfl, rfl⟩

/-! ## Claim C5 (missing authorization) -/

/-- Claim C5: with a classified calendar-event intent and tokens absent or
lacking a truthy access_token, talkAs returns the fixed authorization
message (no exception); through the orchestrator that reply counts as one
attempt and the loop ends in success, since the message contains neither
marker; the token object enters the decision only through the truthiness of
access_token, and with a truthy access_token the calendar creation is
attempted (on success the confirmation is returned). -/
theorem C5_auth_missing_success (parse : List Char → Option Json)
    (toISO : JsDateTime → String) (now : JsDateTime) (tz persona : String)
    (raw : String) (ed : Json) (tokens : Option AuthTokens)
    (createEvent : Json → Except String CalendarEvent)
    (hclass : classify parse raw.data = .event ed)
    (htok : tokensOk tokens = false) :
    talkAs parse toISO now tz persona (.ok raw) tokens createEvent = authMessage
    ∧ chatRun (fun _ => .ok (talkAs parse toISO now tz persona (.ok raw) tokens createEvent))
        = ⟨authMessage, true, [], 1⟩
    ∧ (∀ t1 t2 : Option AuthTokens, tokensOk t1 = tokensOk t2 →
        talkAs parse toISO now tz persona (.ok raw) t1 createEvent
          = talkAs parse toISO now tz persona (.ok raw) t2 createEvent)
    ∧ (∀ tk : AuthTokens, tokensOk (some tk) = true →
        ∀ ed2 ev, normalize toISO now tz ed = .ok ed2 → createEvent ed2 = .ok ev →
          talkAs parse toISO now tz persona (.ok raw) (some tk) createEvent
            = confirmMessage ev) := by
  have h1 : talkAs parse toISO now tz persona (.ok raw) tokens createEvent = authMessage := by
    simp [talkAs, hclass, htok]
  refine ⟨h1, ?_, ?_, ?_⟩
  · simp only [h1]
    decide
  · intro t1 t2 h12
    simp only [talkAs, hclass]
    rw [h12]
  · intro tk htk ed2 ev hnorm hcreate
    simp [talkAs, hclass, htk, hnorm, hcreate]

/-- Witness for C5: a concrete intent with no tokens at all yields the
authorization message, and the orchestrator accepts it on the first call. -/
theorem C5_witness :
    talkAs parseJsonSimple isoStub now0 "UTC" "Ada" (.ok c2GoodRaw) none calStub
        = authMessage
    ∧ chatRun (fun _ => .ok (talkAs parseJsonSimple isoStub now0 "UTC" "Ada"
          (.ok c2GoodRaw) none calStub))
        = ⟨authMessage, true, [], 1⟩ :=
  ⟨(C5_auth_missing_success parseJsonSimple isoStub now0 "UTC" "Ada" c2GoodRaw
      c2GoodDetails none calStub rfl rfl).1,
   (C5_auth_missing_success parseJsonSimple isoStub now0 "UTC" "Ada" c2GoodRaw
      c2GoodDetails none calStub rfl rfl).2.1⟩

/-! ## Claim C1 (retry behavior on thrown errors) -/

/-- Claim C1 (code evaluation): the /chat loop does retry with linear
back-off when the awaited attempt itself rejects — attempts rejecting twice
then succeeding return the third result after waits of 1000 and 2000 ms, and
three rejections surface the API-error text naming the attempt count and the
last error (second to fifth conjuncts).  But `talkAs` never rejects: a
model-call error is caught inside it and RETURNED as a warning string, which
the success predicate accepts, so the composed system returns the error text
as a success on the first call, with no wait and no retry (first conjunct) —
the retry path is unreachable for model or calendar errors. -/
theorem C1_error_swallowed_no_retry :
    chatRun (fun _ => .ok (talkAs parseJsonSimple isoStub now0 "UTC" "Ada"
        (.error "boom") none calStub))
      = ⟨personaFailMessage "Ada" "boom", true, [], 1⟩
    ∧ chatRun (fun i => if i < 2 then .error "boom" else .ok "third try result")
        = ⟨"third try result", true, [1000, 2000], 3⟩
    ∧ chatRun (fun _ => .error "boom")
        = ⟨apiErrorText "boom", false, [1000, 2000], 3⟩
    ∧ strIncludes (apiErrorText "boom") "3" = true
    ∧ strIncludes (apiErrorText "boom") "boom" = true :=
  ⟨by decide, by decide, by decide, by decide, by decide⟩

/-! ## Claim C6 (three fully labeled ideas) -/

theorem fieldOr_populated {m : Option (List Char)} (h : populatedCapture m = true) :
    fieldOr m ≠ sentinelNA ∧ fieldOr m ≠ [] := by
  cases m with
  | none => simp [populatedCapture] at h
  | some c =>
    simp only [populatedCapture, Bool.and_eq_true, Bool.not_eq_true',
      List.isEmpty_eq_false, beq_eq_false_iff_ne, ne_eq] at h
    simp only [fieldOr]
    exact ⟨h.2, h.1⟩

theorem extractRecord_populated (i : Nat) (fb : List Char)
    (h : populatedBlock fb = true) :
    ∀ f ∈ recordFields (extractRecord i fb), f ≠ sentinelNA ∧ f ≠ [] := by
  simp only [populatedBlock, Bool.and_eq_true] at h
  obtain ⟨⟨⟨⟨⟨⟨⟨hn, h2⟩, h3⟩, h4⟩, h5⟩, h6⟩, h7⟩, h8⟩ := h
  intro f hf
  simp only [recordFields, List.mem_cons, List.not_mem_nil, or_false] at hf
  rcases hf with rfl | rfl | rfl | rfl | rfl | rfl | rfl | rfl
  · cases hm : matchField "Idea Name:".data "Concept:".data fb with
    | none => rw [hm] at hn; simp [populatedName] at hn
    | some c =>
      rw [hm] at hn
      simp only [populatedName, Bool.and_eq_true, Bool.not_eq_true',
        List.isEmpty_eq_false, beq_eq_false_iff_ne, ne_eq] at hn
      have hname : (extractRecord i fb).name = trimL (stripPunct c) := by
        simp [extractRecord, hm]
      rw [hname]
      exact ⟨hn.2, hn.1⟩
  · exact fieldOr_populated h2
  · exact fieldOr_populated h3
  · exact fieldOr_populated h4
  · exact fieldOr_populated h5
  · exact fieldOr_populated h6
  · exact fieldOr_populated h7
  · exact fieldOr_populated h8

/-- Claim C6: on an input whose cleaned text splits into exactly three
blocks, each of which carries all eight labels with real content, format
renders exactly the three extracted records, in input order, and no rendered
field is the sentinel "N/A" (nor blank). -/
theorem C6_three_ideas (t : String) (b1 b2 b3 : List Char)
    (hsplit : ideaBlocksOf (trimL (collapseWs t.data)) = [b1, b2, b3])
    (h1 : populatedBlock (fullBlockOf b1) = true)
    (h2 : populatedBlock (fullBlockOf b2) = true)
    (h3 : populatedBlock (fullBlockOf b3) = true) :
    formatResponse t
      = ⟨trimL (concatAll
          [renderRecord 0 (extractRecord 0 (fullBlockOf b1)),
           renderRecord 1 (extractRecord 1 (fullBlockOf b2)),
           renderRecord 2 (extractRecord 2 (fullBlockOf b3))])⟩
    ∧ (∀ r ∈ [extractRecord 0 (fullBlockOf b1), extractRecord 1 (fullBlockOf b2),
          extractRecord 2 (fullBlockOf b3)],
        ∀ f ∈ recordFields r, f ≠ sentinelNA ∧ f ≠ []) := by
  constructor
  · simp only [formatResponse, formatL]
    rw [hsplit]
    rfl
  · intro r hr
    simp only [List.mem_cons, List.not_mem_nil, or_false] at hr
    rcases hr with rfl | rfl | rfl
    · exact extractRecord_populated 0 _ h1
    · exact extractRecord_populated 1 _ h2
    · exact extractRecord_populated 2 _ h3

/-! ## Claim C10: lemmas about the split delimiter

The failure marker "1. Idea Name: N/A" contains a match of the split
delimiter `/\d+\.\s*Idea Name:/`, so no split segment can contain the
marker; the lemmas below make the scanner's residual property precise. -/

theorem digitChar_isDigit {d : Nat} (h : d < 10) :
    (Char.ofNat (48 + d)).isDigit = true := by
  interval_cases d <;> decide

theorem natCharsAux_digits : ∀ fuel n, n < fuel →
    ∀ c ∈ natCharsAux fuel n, c.isDigit = true := by
  intro fuel
  induction fuel with
  | zero => omega
  | succ fuel ih =>
    intro n hn c hc
    rw [natCharsAux] at hc
    by_cases h10 : n < 10
    · rw [if_pos h10] at hc
      simp at hc
      subst hc
      exact digitChar_isDigit h10
    · rw [if_neg h10] at hc
      rcases List.mem_append.mp hc with h1 | h1
      · exact ih (n / 10) (by omega) c h1
      · simp at h1
        subst h1
        exact digitChar_isDigit (Nat.mod_lt _ (by omega))

theorem natChars_digits (n : Nat) : ∀ c ∈ natChars n, c.isDigit = true :=
  natCharsAux_digits (n + 1) n (by omega)

theorem takeWhile_append_of {p : Char → Bool} {a : List Char} {x : Char} {r : List Char}
    (ha : ∀ c ∈ a, p c = true) (hx : p x = false) :
    (a ++ x :: r).takeWhile p = a := by
  induction a with
  | nil => simp [List.takeWhile_cons, hx]
  | cons c a ih =>
    have hc : p c = true := ha c (by simp)
    simp only [List.cons_append, List.takeWhile_cons, hc, if_true]
    rw [ih (fun d hd => ha d (by simp [hd]))]

theorem mem_takeWhile_pred {p : Char → Bool} {l : List Char} {c : Char}
    (h : c ∈ l.takeWhile p) : p c = true := by
  induction l with
  | nil => simp [List.takeWhile] at h
  | cons a t ih =>
    rw [List.takeWhile_cons] at h
    by_cases hp : p a = true
    · rw [if_pos hp] at h
      rcases List.mem_cons.mp h with rfl | h2
      · exact hp
      · exact ih h2
    · rw [if_neg hp] at h
      simp at h

theorem startsWithL_append_self (p t : List Char) : startsWithL p (p ++ t) = true :=
  startsWithL_iff.mpr ⟨t, rfl⟩

theorem matchAt_bounds {s : List Char} {n : Nat} (h : matchAt s = some n) :
    1 ≤ n ∧ n ≤ s.length := by
  simp only [matchAt] at h
  split at h
  · exact Option.noConfusion h
  · rename_i hne
    split at h
    · rename_i c rest heq
      split at h
      · split at h
        · rename_i hdot hsw
          rw [Option.some.injEq] at h
          have hds1 : 1 ≤ (s.takeWhile Char.isDigit).length := by
            cases hx : s.takeWhile Char.isDigit with
            | nil => rw [hx] at hne; simp at hne
            | cons a t => simp
          have hsplit : s.takeWhile Char.isDigit ++ s.dropWhile Char.isDigit = s :=
            List.takeWhile_append_dropWhile _ _
          have hlen : (s.takeWhile Char.isDigit).length + (s.dropWhile Char.isDigit).length
              = s.length := by
            rw [← List.length_append, hsplit]
          have hrest : rest.takeWhile jsWs ++ rest.dropWhile jsWs = rest :=
            List.takeWhile_append_dropWhile _ _
          have hrlen : (rest.takeWhile jsWs).length + (rest.dropWhile jsWs).length
              = rest.length := by
            rw [← List.length_append, hrest]
          have hlab : ideaLabel.length ≤ (rest.dropWhile jsWs).length :=
            (startsWithL_iff.mp hsw).length_le
          have hdl : (s.dropWhile Char.isDigit).length = rest.length + 1 := by
            rw [heq]
            simp
          have h10 : ideaLabel.length = 10 := by decide
          omega
        · exact Option.noConfusion h
      · exact Option.noConfusion h
    · exact Option.noConfusion h

theorem patAt_nil : ¬ patAt [] := by
  rintro ⟨ds, ws, rest, heq, hne, -, -⟩
  have := congrArg List.length heq
  simp at this
  exact hne (List.length_eq_zero.mp (by omega))

theorem patAt_append {v w : List Char} (h : patAt v) : patAt (v ++ w) := by
  obtain ⟨ds, ws, rest, rfl, hne, hdig, hws⟩ := h
  exact ⟨ds, ws, rest ++ w, by simp [List.append_assoc], hne, hdig, hws⟩

theorem patAt_marker (rest : List Char) : patAt (failureMarker.data ++ rest) :=
  ⟨['1'], [' '], " N/A".data ++ rest, rfl, by decide, by decide, by decide⟩

theorem matchAt_isSome_of_patAt {s : List Char} (h : patAt s) : (matchAt s).isSome := by
  obtain ⟨ds, ws, rest, rfl, hne, hdig, hws⟩ := h
  unfold matchAt
  have h1 : (ds ++ '.' :: (ws ++ (ideaLabel ++ rest))).takeWhile Char.isDigit = ds :=
    takeWhile_append_of hdig (by decide)
  have h2 : (ds ++ '.' :: (ws ++ (ideaLabel ++ rest))).dropWhile Char.isDigit
      = '.' :: (ws ++ (ideaLabel ++ rest)) := by
    have h3 := List.takeWhile_append_dropWhile Char.isDigit
      (ds ++ '.' :: (ws ++ (ideaLabel ++ rest)))
    rw [h1] at h3
    exact List.append_cancel_left h3
  rw [h1, h2]
  rw [if_neg (by simpa [List.isEmpty_iff] using hne)]
  simp only [if_pos rfl]
  have hlab : ideaLabel ++ rest = 'I' :: ("dea Name:".data ++ rest) := rfl
  have h4 : (ws ++ (ideaLabel ++ rest)).dropWhile jsWs = ideaLabel ++ rest := by
    rw [hlab]
    have h5 := List.takeWhile_append_dropWhile jsWs (ws ++ 'I' :: ("dea Name:".data ++ rest))
    rw [takeWhile_append_of hws (by decide)] at h5
    exact List.append_cancel_left h5
  rw [h4, startsWithL_append_self]
  rfl

theorem not_patAt_of_matchAt_none {s : List Char} (h : matchAt s = none) : ¬ patAt s := by
  intro hp
  have := matchAt_isSome_of_patAt hp
  rw [h] at this
  simp at this

theorem splitGo_segments : ∀ (fuel : Nat) (cur s : List Char),
    s.length < fuel →
    (∀ p, p < cur.length → ¬ patAt (cur.reverse.drop p ++ s)) →
    ∀ seg ∈ splitGo fuel cur s, ∀ p, ¬ patAt (seg.drop p) := by
  intro fuel
  induction fuel with
  | zero => omega
  | succ fuel ih =>
    intro cur s hlen hcur seg hseg p
    cases hm : matchAt s with
    | some n =>
      simp only [splitGo, hm] at hseg
      rcases List.mem_cons.mp hseg with rfl | hseg2
      · by_cases hp : p < cur.length
        · intro hpat
          have hrev : cur.reverse.length = cur.length := by simp
          exact hcur p hp (patAt_append hpat)
        · rw [List.drop_eq_nil_of_le (by simp; omega)]
          exact patAt_nil
      · have hb := matchAt_bounds hm
        exact ih [] (s.drop n) (by simp [List.length_drop]; omega)
          (by intro q hq; simp at hq) seg hseg2 p
    | none =>
      simp only [splitGo, hm] at hseg
      cases s with
      | nil =>
        simp at hseg
        subst hseg
        by_cases hp : p < cur.length
        · have h2 := hcur p hp
          rw [List.append_nil] at h2
          exact h2
        · rw [List.drop_eq_nil_of_le (by simp; omega)]
          exact patAt_nil
      | cons c rest =>
        apply ih (c :: cur) rest (by simp at hlen ⊢; omega) ?_ seg hseg p
        intro q hq
        rw [show (c :: cur).reverse = cur.reverse ++ [c] from by simp]
        by_cases hqc : q < cur.length
        · rw [List.drop_append_of_le_length (by simp; omega), List.append_assoc]
          exact hcur q hqc
        · have hq2 : q = cur.length := by simp at hq; omega
          subst hq2
          rw [show cur.length = cur.reverse.length from by simp, List.drop_left]
          intro hpat
          have his := matchAt_isSome_of_patAt (s := c :: rest) hpat
          rw [hm] at his
          simp at his

theorem splitIdea_segments (s : List Char) :
    ∀ seg ∈ splitIdea s, ∀ p, ¬ patAt (seg.drop p) :=
  splitGo_segments (s.length + 1) [] s (by omega) (by intro p hp; simp at hp)

theorem marker_not_infix_seg {seg : List Char}
    (hseg : ∀ p, ¬ patAt (seg.drop p)) : ¬ failureMarker.data <:+: seg := by
  rintro ⟨t, u, htu⟩
  have hd : seg.drop t.length = failureMarker.data ++ u := by
    conv_lhs => rw [← htu]
    rw [List.append_assoc, List.drop_left]
  exact absurd (by rw [hd]; exact patAt_marker u) (hseg t.length)

theorem findLabelCi_suffix {label : List Char} :
    ∀ {s r : List Char}, findLabelCi label s = some r → r <:+ s := by
  intro s
  induction s with
  | nil =>
    intro r h
    unfold findLabelCi at h
    split at h
    · cases h
      exact List.nil_suffix
    · exact Option.noConfusion h
  | cons c rest ih =>
    intro r h
    unfold findLabelCi at h
    split at h
    · cases h
      exact List.drop_suffix _ _
    · exact (ih h).trans (List.suffix_cons c rest)

theorem captureUntil_prefix (next : List Char) : ∀ s, captureUntil next s <+: s := by
  intro s
  induction s with
  | nil => simp [captureUntil]
  | cons c rest ih =>
    unfold captureUntil
    split
    · exact List.nil_prefix
    · exact List.cons_prefix_cons.mpr ⟨rfl, ih⟩

theorem matchField_within {label next s c : List Char}
    (h : matchField label next s = some c) : c <:+: s := by
  unfold matchField at h
  cases hf : findLabelCi label s with
  | none => rw [hf] at h; exact Option.noConfusion h
  | some r =>
    rw [hf, Option.map_some'] at h
    rw [Option.some.injEq] at h
    have hr : r <:+ s := findLabelCi_suffix hf
    have h1 : c <+: r.dropWhile jsWs := h ▸ captureUntil_prefix next _
    have h2 : r.dropWhile jsWs <:+ r := List.dropWhile_suffix _
    exact h1.isInfix.trans (h2.trans hr).isInfix

theorem matchToEnd_within {label s c : List Char}
    (h : matchToEnd label s = some c) : c <:+: s := by
  unfold matchToEnd at h
  cases hf : findLabelCi label s with
  | none => rw [hf] at h; exact Option.noConfusion h
  | some r =>
    rw [hf, Option.map_some'] at h
    rw [Option.some.injEq] at h
    have hr : r <:+ s := findLabelCi_suffix hf
    have h2 : r.dropWhile jsWs <:+ r := List.dropWhile_suffix _
    exact h ▸ (h2.trans hr).isInfix

theorem marker_not_in_fullBlock {b : List Char}
    (hb : ∀ p, ¬ patAt (b.drop p)) :
    ¬ failureMarker.data <:+: fullBlockOf b := by
  have hbm : ¬ failureMarker.data <:+: b := marker_not_infix_seg hb
  have htrim : ¬ failureMarker.data <:+: trimL b :=
    fun h => hbm (h.trans (trimL_within b))
  unfold fullBlockOf
  apply not_infix_append (by decide) htrim
  intro k hk1 hk2
  rintro ⟨hks, -⟩
  have hk17 : k < 17 := by
    have h17 : failureMarker.data.length = 17 := by decide
    omega
  interval_cases k <;> revert hks <;> decide

/-! ## Claim C10: boundary analysis of the rendering template -/

theorem no_marker_concat {m : List Char} (hm : m ≠ []) (hnl : '\n' ∉ m) :
    ∀ (l : List (List Char)), (∀ c ∈ l, ¬ m <:+: c) → chainOk m l →
      ¬ m <:+: concatAll l := by
  intro l
  induction l with
  | nil =>
    intro _ _ h
    rw [show concatAll [] = [] from rfl] at h
    exact hm (List.infix_nil.mp h)
  | cons c rest ih =>
    intro hclean hchain
    obtain ⟨hb, hrest⟩ := hchain
    have hc := hclean c (by simp)
    have hr : ¬ m <:+: concatAll rest :=
      ih (fun x hx => hclean x (by simp [hx])) hrest
    rw [show concatAll (c :: rest) = c ++ concatAll rest from rfl]
    apply not_infix_append hc hr
    intro k hk1 hk2
    rintro ⟨hks, hkp⟩
    rcases hb with hsafe | hhead
    · exact hsafe k hk2 hk1 hks
    · have hne : m.drop k ≠ [] := by
        intro h0
        have := congrArg List.length h0
        simp at this
        omega
      obtain ⟨w, hw⟩ := hkp
      have hh : (concatAll rest).head? = (m.drop k).head? := by
        rw [← hw, List.head?_append]
        cases hx : (m.drop k).head? with
        | none => exact absurd (List.head?_eq_none_iff.mp hx) hne
        | some y => rfl
      rw [hhead] at hh
      have hmem : '\n' ∈ m.drop k := List.mem_of_mem_head? (by rw [← hh]; rfl)
      exact hnl (List.drop_subset _ _ hmem)

theorem getLast?_append_some {l l' : List Char} {a : Char} (h : l'.getLast? = some a) :
    (l ++ l').getLast? = some a := by
  rw [List.getLast?_append, h]
  rfl

theorem leftSafe_of_getLast_newline {c : List Char} (hc : c.getLast? = some '\n') :
    leftSafe failureMarker.data c := by
  intro k hklt hk0 hks
  have h17 : failureMarker.data.length = 17 := by decide
  have h1 : failureMarker.data.take k ≠ [] := by
    intro h0
    have hlen := congrArg List.length h0
    rw [List.length_take, h17] at hlen
    simp at hlen
    omega
  have h2 := getLast?_of_suffix hks h1
  rw [hc] at h2
  have h3 : '\n' ∈ failureMarker.data.take k :=
    List.mem_of_mem_getLast? (by rw [← h2]; rfl)
  have h4 : '\n' ∈ failureMarker.data := List.take_subset _ _ h3
  exact absurd h4 (by decide)

theorem heading_leftSafe (i : Nat) :
    leftSafe failureMarker.data
      ("\n**".data ++ natChars (i + 1) ++ ". Idea Name:** ".data) := by
  intro k hklt hk0 hks
  have hk17 : k < 17 := by
    have h17 : failureMarker.data.length = 17 := by decide
    omega
  have hne : failureMarker.data.take k ≠ [] := by
    intro h0
    have hlen := congrArg List.length h0
    have h17 : failureMarker.data.length = 17 := by decide
    rw [List.length_take, h17] at hlen
    simp at hlen
    omega
  have hl : (("\n**".data ++ natChars (i + 1)) ++ ". Idea Name:** ".data).getLast?
      = some ' ' := by
    rw [List.getLast?_append]
    rfl
  have hlast := getLast?_of_suffix hks hne
  rw [hl] at hlast
  interval_cases k <;>
    first
    | (revert hlast; decide)
    | (have hsub := suffix_append_le hks (by decide)
       revert hsub
       decide)

theorem marker_not_in_heading (i : Nat) :
    ¬ failureMarker.data <:+:
      ("\n**".data ++ natChars (i + 1) ++ ". Idea Name:** ".data) := by
  have hnum := natChars_digits (i + 1)
  apply not_infix_append
  · apply not_infix_append
    · decide
    · intro h
      have hdot : ('.' : Char) ∈ natChars (i + 1) := h.subset (by decide)
      exact absurd (hnum _ hdot) (by decide)
    · intro k hk1 hk2
      rintro ⟨hks, -⟩
      have hk17 : k < 17 := by
        have h17 : failureMarker.data.length = 17 := by decide
        omega
      interval_cases k <;> revert hks <;> decide
  · decide
  · intro k hk1 hk2
    rintro ⟨-, hkp⟩
    have hk17 : k < 17 := by
      have h17 : failureMarker.data.length = 17 := by decide
      omega
    interval_cases k <;> revert hkp <;> decide

theorem marker_not_in_default_name (i : Nat) :
    ¬ failureMarker.data <:+: ("Idea ".data ++ natChars (i + 1)) := by
  have hnum := natChars_digits (i + 1)
  apply not_infix_append
  · decide
  · intro h
    have hdot : ('.' : Char) ∈ natChars (i + 1) := h.subset (by decide)
    exact absurd (hnum _ hdot) (by decide)
  · intro k hk1 hk2
    rintro ⟨hks, -⟩
    have hk17 : k < 17 := by
      have h17 : failureMarker.data.length = 17 := by decide
      omega
    interval_cases k <;> revert hks <;> decide

theorem render_getLast (i : Nat) (r : IdeaRecord) :
    (renderRecord i r).getLast? = some '\n' := by
  simp only [renderRecord, renderPieces, concatAll, List.foldr_cons, List.foldr_nil]
  iterate 16 apply getLast?_append_some
  decide

theorem chainOk_of_all_leftSafe {m : List Char} :
    ∀ (l : List (List Char)), (∀ c ∈ l, leftSafe m c) → chainOk m l := by
  intro l
  induction l with
  | nil => intro _; trivial
  | cons c rest ih =>
    intro h
    exact ⟨Or.inl (h c (by simp)), ih (fun x hx => h x (by simp [hx]))⟩

theorem chainOk_renderPieces (i : Nat) (r : IdeaRecord) :
    chainOk failureMarker.data (renderPieces i r) := by
  refine ⟨Or.inl (heading_leftSafe i), Or.inr rfl, Or.inl (by decide), Or.inr rfl,
    Or.inl (by decide), Or.inr rfl, Or.inl (by decide), Or.inr rfl,
    Or.inl (by decide), Or.inr rfl, Or.inl (by decide), Or.inr rfl,
    Or.inl (by decide), Or.inr rfl, Or.inl (by decide), Or.inr rfl,
    Or.inl (by decide), trivial⟩

theorem marker_not_in_render (i : Nat) (r : IdeaRecord)
    (hf : ∀ f ∈ recordFields r, ¬ failureMarker.data <:+: f) :
    ¬ failureMarker.data <:+: renderRecord i r := by
  unfold renderRecord
  apply no_marker_concat (by decide) (by decide)
  · intro c hc
    simp only [renderPieces, List.mem_cons, List.not_mem_nil, or_false] at hc
    rcases hc with rfl | rfl | rfl | rfl | rfl | rfl | rfl | rfl | rfl | rfl | rfl
      | rfl | rfl | rfl | rfl | rfl | rfl
    · exact marker_not_in_heading i
    · exact hf r.name (by simp [recordFields])
    · decide
    · exact hf r.concept (by simp [recordFields])
    · decide
    · exact hf r.keyFeatures (by simp [recordFields])
    · decide
    · exact hf r.targetMarket (by simp [recordFields])
    · decide
    · exact hf r.usp (by simp [recordFields])
    · decide
    · exact hf r.monetization (by simp [recordFields])
    · decide
    · exact hf r.challenges (by simp [recordFields])
    · decide
    · exact hf r.summary (by simp [recordFields])
    · decide
  · exact chainOk_renderPieces i r

theorem fieldOr_no_marker {label next s : List Char}
    (hs : ¬ failureMarker.data <:+: s) :
    ¬ failureMarker.data <:+: fieldOr (matchField label next s) := by
  cases hm : matchField label next s with
  | none =>
    simp only [fieldOr]
    decide
  | some c =>
    simp only [fieldOr]
    intro h
    exact hs ((h.trans (trimL_within c)).trans (matchField_within hm))

theorem fieldOrEnd_no_marker {label s : List Char}
    (hs : ¬ failureMarker.data <:+: s) :
    ¬ failureMarker.data <:+: fieldOr (matchToEnd label s) := by
  cases hm : matchToEnd label s with
  | none =>
    simp only [fieldOr]
    decide
  | some c =>
    simp only [fieldOr]
    intro h
    exact hs ((h.trans (trimL_within c)).trans (matchToEnd_within hm))

theorem extractRecord_no_marker (i : Nat) (b : List Char)
    (hb : ∀ p, ¬ patAt (b.drop p))
    (hname : ¬ failureMarker.data <:+: (extractRecord i (fullBlockOf b)).name) :
    ∀ f ∈ recordFields (extractRecord i (fullBlockOf b)),
      ¬ failureMarker.data <:+: f := by
  have hfb := marker_not_in_fullBlock hb
  intro f hfm
  simp only [recordFields, List.mem_cons, List.not_mem_nil, or_false] at hfm
  rcases hfm with rfl | rfl | rfl | rfl | rfl | rfl | rfl | rfl
  · exact hname
  · exact fieldOr_no_marker hfb
  · exact fieldOr_no_marker hfb
  · exact fieldOr_no_marker hfb
  · exact fieldOr_no_marker hfb
  · exact fieldOr_no_marker hfb
  · exact fieldOr_no_marker hfb
  · exact fieldOrEnd_no_marker hfb

/-- Claim C10 counterexample: the idea-name capture of this input is
"1.* Idea Name: N/A"; stripping '*' turns it into the orchestrator's
failure marker, so the formatter output CONTAINS "1. Idea Name: N/A" and the
orchestrator's check misclassifies this formatter output as an extraction
miss — refuting "the output never contains the literal failure marker". -/
theorem C10_counterexample :
    strIncludes (formatResponse c10Input) failureMarker = true := by decide

/-- Core of C10 over an abstract block list: if no block contains a split
delimiter occurrence and no extracted idea name contains the failure marker,
then the concatenated rendering does not contain the marker. -/
theorem no_marker_blocks (blocks : List (List Char))
    (hsegs : ∀ b ∈ blocks, ∀ q, ¬ patAt (b.drop q))
    (hname : ∀ p ∈ blocks.enum,
      ¬ failureMarker.data <:+: (extractRecord p.1 (fullBlockOf p.2)).name) :
    ¬ failureMarker.data <:+: concatAll
      (blocks.enum.map (fun p => renderRecord p.1 (extractRecord p.1 (fullBlockOf p.2)))) := by
  apply no_marker_concat (by decide) (by decide)
  · intro c hc
    rw [List.mem_map] at hc
    obtain ⟨p, hpmem, rfl⟩ := hc
    have hbm : p.2 ∈ blocks := List.snd_mem_of_mem_enum hpmem
    have hbseg : ∀ q, ¬ patAt (p.2.drop q) := hsegs p.2 hbm
    exact marker_not_in_render p.1 _
      (extractRecord_no_marker p.1 p.2 hbseg (hname p hpmem))
  · apply chainOk_of_all_leftSafe
    intro c hc
    rw [List.mem_map] at hc
    obtain ⟨p, hpmem, rfl⟩ := hc
    exact leftSafe_of_getLast_newline (render_getLast p.1 _)

/-- Claim C10 (amended): the formatter output contains the failure marker
"1. Idea Name: N/A" only when the punctuation-stripping of an idea-name
capture manufactures it: for every input whose extracted (stripped, trimmed)
idea names do not contain the marker, the output does not contain the
marker.  Every other channel is closed: split segments cannot contain a
delimiter match (hence no captured field can carry the marker), and the
rendering template's literals cannot complete one across boundaries. -/
theorem C10_no_marker (t : String)
    (hname : ∀ p ∈ (ideaBlocksOf (trimL (collapseWs t.data))).enum,
      ¬ failureMarker.data <:+: (extractRecord p.1 (fullBlockOf p.2)).name) :
    strIncludes (formatResponse t) failureMarker = false := by
  have hmain := no_marker_blocks (ideaBlocksOf (trimL (collapseWs t.data)))
    (fun b hb => splitIdea_segments (trimL (collapseWs t.data)) b (List.mem_of_mem_filter hb))
    hname
  have hfmt : ¬ failureMarker.data <:+: formatL t.data := by
    unfold formatL
    intro h
    exact hmain (h.trans (trimL_within _))
  exact containsSub_false.mpr hfmt

set_option maxRecDepth 40000 in
/-- Witness for C10: a clean three-idea response never contains the failure
marker, so the orchestrator accepts it. -/
theorem C10_witness :
    strIncludes (formatResponse threeIdeasText) failureMarker = false :=
  C10_no_marker threeIdeasText (by decide)

set_option maxRecDepth 40000 in
/-- Witness for C6: a concrete three-idea response renders to three records
in order with every field populated. -/
theorem C6_witness :
    formatResponse threeIdeasText
      = ⟨trimL (concatAll
          [renderRecord 0 (extractRecord 0 (fullBlockOf threeIdeasB1.data)),
           renderRecord 1 (extractRecord 1 (fullBlockOf threeIdeasB2.data)),
           renderRecord 2 (extractRecord 2 (fullBlockOf threeIdeasB3.data))])⟩
    ∧ (∀ r ∈ [extractRecord 0 (fullBlockOf threeIdeasB1.data),
          extractRecord 1 (fullBlockOf threeIdeasB2.data),
          extractRecord 2 (fullBlockOf threeIdeasB3.data)],
        ∀ f ∈ recordFields r, f ≠ sentinelNA ∧ f ≠ []) :=
  C6_three_ideas threeIdeasText threeIdeasB1.data threeIdeasB2.data threeIdeasB3.data
    (by decide) (by decide) (by decide) (by decide)


/-! ## Claim C4 (empty output iff zero blocks)

Both directions of the amended claim: zero filtered blocks render to the
empty string, and any non-empty block list renders to text that survives the
final trim (the heading literal of the first record carries a '*'), so empty
output characterizes zero blocks.  The one-block statement for unlabeled
non-blank input follows from the splitting scan returning the whole text
when no delimiter match starts at any position. -/

/-- The heading piece of every rendered record carries a '*', so a rendered
record is never all-whitespace. -/
theorem star_mem_render (i : Nat) (r : IdeaRecord) : '*' ∈ renderRecord i r := by
  simp only [renderRecord, renderPieces, concatAll, List.foldr_cons]
  exact List.mem_append_left _
    (List.mem_append_left _ (List.mem_append_left _ (by decide)))

/-- The concatenated rendering of a non-empty block list contains a '*'. -/
theorem star_in_renders (b : List Char) (rest : List (List Char)) :
    '*' ∈ concatAll (((b :: rest).enum).map
      (fun p => renderRecord p.1 (extractRecord p.1 (fullBlockOf p.2)))) := by
  show '*' ∈ renderRecord 0 (extractRecord 0 (fullBlockOf b)) ++ concatAll
      ((List.enumFrom 1 rest).map
        (fun p => renderRecord p.1 (extractRecord p.1 (fullBlockOf p.2))))
  exact List.mem_append_left _ (star_mem_render 0 _)

/-- A list containing a non-whitespace character does not trim to empty. -/
theorem trimL_ne_nil_of_mem {l : List Char} {c : Char}
    (hc : c ∈ l) (hw : jsWs c = false) : trimL l ≠ [] := by
  intro h
  unfold trimL at h
  rw [List.reverse_eq_nil_iff, List.dropWhile_eq_nil_iff] at h
  have h2 : ∀ x ∈ l.dropWhile jsWs, jsWs x = true :=
    fun x hx => h x (List.mem_reverse.mpr hx)
  have hsplit : l.takeWhile jsWs ++ l.dropWhile jsWs = l :=
    List.takeWhile_append_dropWhile jsWs l
  rw [← hsplit] at hc
  rcases List.mem_append.mp hc with h5 | h5
  · rw [mem_takeWhile_pred h5] at hw
    exact Bool.noConfusion hw
  · rw [h2 c h5] at hw
    exact Bool.noConfusion hw

/-- When no delimiter match starts anywhere in `s`, the splitting scan
returns the single segment `acc.reverse ++ s`. -/
theorem splitGo_no_match : ∀ (fuel : Nat) (acc s : List Char), s.length ≤ fuel →
    (∀ p < s.length, matchAt (s.drop p) = none) →
    splitGo fuel acc s = [acc.reverse ++ s] := by
  intro fuel
  induction fuel with
  | zero =>
    intro acc s hf _
    have hs : s = [] := List.eq_nil_of_length_eq_zero (Nat.le_zero.mp hf)
    subst hs
    simp [splitGo]
  | succ fuel ih =>
    intro acc s hf h
    cases s with
    | nil => simp [splitGo, show matchAt [] = none from rfl]
    | cons c rest =>
      have h0 : matchAt (c :: rest) = none := by
        have h1 := h 0 (by simp)
        rwa [List.drop_zero] at h1
      simp only [splitGo, h0]
      rw [ih (c :: acc) rest (by simp at hf; omega)
        (fun p hp => by
          have h2 := h (p + 1) (by simp; omega)
          rwa [List.drop_succ_cons] at h2)]
      simp

/-- With no delimiter match anywhere, the split of line 21 returns the whole
text as its single segment. -/
theorem splitIdea_no_match (s : List Char)
    (h : ∀ p < s.length, matchAt (s.drop p) = none) : splitIdea s = [s] := by
  unfold splitIdea
  rw [splitGo_no_match (s.length + 1) [] s (by omega) h]
  simp

/-- Claim C4 (amended): `format` returns empty output exactly when the
splitter-plus-filter stage finds zero idea blocks; moreover an input whose
cleaned text contains no "<number>. Idea Name:" delimiter match at any
position yet is non-blank produces exactly ONE block — the whole cleaned
text — and a non-empty rendering. -/
theorem C4_empty_iff_no_blocks (t : String) :
    (formatResponse t = "" ↔ ideaBlocksOf (trimL (collapseWs t.data)) = [])
    ∧ ((∀ p < (trimL (collapseWs t.data)).length,
          matchAt ((trimL (collapseWs t.data)).drop p) = none) →
        (trimL (trimL (collapseWs t.data))).isEmpty = false →
        ideaBlocksOf (trimL (collapseWs t.data)) = [trimL (collapseWs t.data)]
          ∧ formatResponse t ≠ "") := by
  have hA : formatResponse t = "" ↔ ideaBlocksOf (trimL (collapseWs t.data)) = [] := by
    constructor
    · intro h
      cases hbl : ideaBlocksOf (trimL (collapseWs t.data)) with
      | nil => rfl
      | cons b rest =>
        exfalso
        have hdata : formatL t.data = [] := congrArg String.data h
        have hform : formatL t.data = trimL (concatAll
            (((b :: rest).enum).map
              (fun p => renderRecord p.1 (extractRecord p.1 (fullBlockOf p.2))))) := by
          simp only [formatL]
          rw [hbl]
        rw [hform] at hdata
        exact trimL_ne_nil_of_mem (star_in_renders b rest) (by decide) hdata
    · intro h
      simp only [formatResponse, formatL]
      rw [h]
      rfl
  refine ⟨hA, fun hm hnb => ?_⟩
  have hblocks : ideaBlocksOf (trimL (collapseWs t.data))
      = [trimL (collapseWs t.data)] := by
    unfold ideaBlocksOf
    rw [splitIdea_no_match _ hm]
    simp [List.filter, hnb]
  refine ⟨hblocks, fun hempty => ?_⟩
  have h0 := hA.mp hempty
  rw [hblocks] at h0
  exact List.noConfusion h0

/-- Witness for C4: the bare label "1. Idea Name:" yields zero blocks and
empty output, while the unlabeled non-blank input "hello" yields one block
(the whole text) and a non-empty rendering. -/
theorem C4_witness :
    formatResponse "1. Idea Name:" = ""
    ∧ ideaBlocksOf (trimL (collapseWs "hello".data)) = ["hello".data]
    ∧ formatResponse "hello" ≠ "" :=
  ⟨(C4_empty_iff_no_blocks "1. Idea Name:").1.mpr (by decide),
   ((C4_empty_iff_no_blocks "hello").2 (by decide) (by decide)).1,
   ((C4_empty_iff_no_blocks "hello").2 (by decide) (by decide)).2⟩


end BsAI
